import Mathlib

/-!
Shallow embedding of the drought-indicator notebook
(`Drought_indicator_extraction_tutorial.ipynb`).

The notebook drives Google Earth Engine (GEE): an image is a single-band
raster with metadata properties; an image collection is a list of images.
We model a (single-band) image over an abstract pixel grid `Pix` as a
partial function from pixels to rational values (`none` = masked pixel),
together with its band name, its metadata property list and its
acquisition date (the calendar fields of `system:time_start` that the
notebook's `calendarRange` filters inspect).  Collection reducers
(`mean`, `min`, `max`) act per pixel on the unmasked values, as in GEE,
and GEE's `divide` returns 0 on division by zero.
-/

namespace GeePython

/-- A metadata property value attached to an Earth Engine image:
the notebook stores numbers (`month`, `year`) and strings (`ID`). -/
inductive PVal where
  | num (z : ℤ)
  | str (s : String)
deriving DecidableEq

/-- Acquisition date of an image, reduced to the calendar fields the
notebook's `ee.Filter.calendarRange` filters inspect. -/
structure MDate where
  year : ℤ
  month : ℤ
deriving DecidableEq

/-- A single-band Earth Engine image over an abstract pixel grid `Pix`:
per-pixel optional value (`none` = masked), band name, metadata
properties, and optional acquisition date. -/
structure Image (Pix : Type) where
  pix : Pix → Option ℚ
  band : String
  props : List (String × PVal)
  date : Option MDate

instance {Pix : Type} : Inhabited (Image Pix) :=
  ⟨⟨fun _ => none, "", [], none⟩⟩

variable {Pix : Type}

/-- Look up a metadata property in a property list (most recent first). -/
def lookupProp (l : List (String × PVal)) (k : String) : Option PVal :=
  (l.find? fun kv => kv.1 == k).map (·.2)

/-- `image.get(k)`: read a metadata property. -/
def getProp (img : Image Pix) (k : String) : Option PVal :=
  lookupProp img.props k

/-- `image.set(k, v)`: set a metadata property (new value shadows old). -/
def setProp (img : Image Pix) (k : String) (v : PVal) : Image Pix :=
  { img with props := (k, v) :: img.props }

/-- `image.propertyNames()`. -/
def propertyNames (img : Image Pix) : List String :=
  img.props.map (·.1)

/-- `dst.copyProperties(src, names)`: the destination keeps its pixels and
band but receives the named metadata of `src`.  The notebook always passes
`src.propertyNames()`, which in GEE includes the system time, so the date
is restored as well. -/
def copyProperties (dst src : Image Pix) (names : List String) : Image Pix :=
  { dst with
      props := (names.filterMap fun k => (getProp src k).map fun v => (k, v)) ++ dst.props,
      date := src.date }

/-- Mean of the unmasked values (GEE reducers skip masked pixels);
`none` when every contributing pixel is masked. -/
def listMean (l : List ℚ) : Option ℚ :=
  match l with
  | [] => none
  | _ :: _ => some (l.sum / l.length)

/-- Minimum of the unmasked values; `none` when there are none. -/
def listMin (l : List ℚ) : Option ℚ :=
  match l with
  | [] => none
  | a :: t => some (t.foldl min a)

/-- Maximum of the unmasked values; `none` when there are none. -/
def listMax (l : List ℚ) : Option ℚ :=
  match l with
  | [] => none
  | a :: t => some (t.foldl max a)

/-- GEE's `divide` semantics on pixel values: division by zero yields 0. -/
def eeDivVal (a b : ℚ) : ℚ :=
  if b = 0 then 0 else a / b

/-- `image.select(b)`: pick out the band `b`.  Our images are single-band,
so selecting the present band is the identity; selecting an absent band
yields an all-masked band of that name (metadata is retained). -/
def eeSelectImg (b : String) (img : Image Pix) : Image Pix :=
  if img.band = b then img else { img with band := b, pix := fun _ => none }

/-- `image.clip(roi)`: mask everything outside the region of interest. -/
def eeClip (roi : Pix → Bool) (img : Image Pix) : Image Pix :=
  { img with pix := fun p => if roi p then img.pix p else none }

/-- `image.multiply(c)`: scale the pixel values; like GEE arithmetic it
does not carry the metadata properties over to the result. -/
def eeMulConst (img : Image Pix) (c : ℚ) : Image Pix :=
  { pix := fun p => (img.pix p).map fun v => v * c,
    band := img.band, props := [], date := none }

/-- `a.subtract(b)`: pixelwise difference; masked where either is masked. -/
def eeSub (a b : Image Pix) : Image Pix :=
  { pix := fun p =>
      match a.pix p, b.pix p with
      | some x, some y => some (x - y)
      | _, _ => none,
    band := a.band, props := [], date := none }

/-- `a.divide(b)`: pixelwise quotient with GEE's division-by-zero = 0;
masked where either input is masked. -/
def eeDivImg (a b : Image Pix) : Image Pix :=
  { pix := fun p =>
      match a.pix p, b.pix p with
      | some x, some y => some (eeDivVal x y)
      | _, _ => none,
    band := a.band, props := [], date := none }

/-- `collection.mean()`: per-pixel mean of the unmasked values; band names
are preserved by GEE's shortcut reducers. -/
def eeMean (col : List (Image Pix)) : Image Pix :=
  { pix := fun p => listMean (col.filterMap fun img => img.pix p),
    band := ((col.head?).map Image.band).getD "",
    props := [], date := none }

/-- `collection.min()`. -/
def eeMinCol (col : List (Image Pix)) : Image Pix :=
  { pix := fun p => listMin (col.filterMap fun img => img.pix p),
    band := ((col.head?).map Image.band).getD "",
    props := [], date := none }

/-- `collection.max()`. -/
def eeMaxCol (col : List (Image Pix)) : Image Pix :=
  { pix := fun p => listMax (col.filterMap fun img => img.pix p),
    band := ((col.head?).map Image.band).getD "",
    props := [], date := none }

/-- `collection.filter(ee.Filter.eq(k, v))`: keep images whose metadata
property `k` equals `v`. -/
def eeFilterEq (col : List (Image Pix)) (k : String) (v : PVal) : List (Image Pix) :=
  col.filter fun img => decide (getProp img k = some v)

/-- The calendar field of a date named by `ee.Filter.calendarRange`. -/
def calField (d : MDate) (field : String) : ℤ :=
  if field = "year" then d.year else d.month

/-- `collection.filter(ee.Filter.calendarRange(lo, hi, field))`: keep the
dated images whose calendar field lies in `[lo, hi]`. -/
def eeFilterCalendarRange (col : List (Image Pix)) (lo hi : ℤ) (field : String) :
    List (Image Pix) :=
  col.filter fun img =>
    match img.date with
    | some d => decide (lo ≤ calField d field ∧ calField d field ≤ hi)
    | none => false

/-- `ee.List.sequence(a, b)`: the integers from `a` to `b` inclusive. -/
def eeSequence (a b : ℤ) : List ℤ :=
  (List.range (b - a + 1).toNat).map fun i : ℕ => a + (i : ℤ)

/-- The notebook's module-level configuration variables. -/
structure Globals where
  start_year : ℤ
  end_year : ℤ
  y : ℤ
  fps : ℤ

/-- The values the notebook assigns: `start_year = 2001`, `end_year = 2022`,
animated year `y = 2022`, `fps = 2`. -/
def notebook_globals : Globals :=
  { start_year := 2001, end_year := 2022, y := 2022, fps := 2 }

/-! ### Python string helpers used by the label routines -/

/-- The ASCII character of a decimal digit. -/
def digitChar (d : Nat) : Char :=
  Char.ofNat (48 + d)

/-- Decimal digits of `n`, most significant first (fuel-driven so that it
unfolds by computation; the fuel only ever needs to exceed the digit count). -/
def natChars : Nat → Nat → List Char
  | 0, _ => []
  | f + 1, n => if n < 10 then [digitChar n] else natChars f (n / 10) ++ [digitChar (n % 10)]

/-- Python `str` on a natural number. -/
def pyStrNat (n : Nat) : String :=
  String.mk (natChars (n + 1) n)

/-- Python `str` on an integer. -/
def pyStrInt (z : ℤ) : String :=
  if z < 0 then "-" ++ pyStrNat z.natAbs else pyStrNat z.toNat

/-- Python `range(a, b)` as a list of integers. -/
def pyRange (a b : ℤ) : List ℤ :=
  (List.range (b - a).toNat).map fun i : ℕ => a + (i : ℤ)

/-- Python `s.rjust(w, fill)`. -/
def pyRjust (s : String) (w : Nat) (fill : Char) : String :=
  if w ≤ s.length then s else String.mk (List.replicate (w - s.length) fill ++ s.data)

/-- Python `s.zfill(w)` (zero padding goes after a leading sign). -/
def pyZfill (s : String) (w : Nat) : String :=
  if w ≤ s.length then s
  else
    match s.data with
    | c :: rest =>
        if c = '-' ∨ c = '+' then String.mk (c :: (List.replicate (w - s.length) '0' ++ rest))
        else String.mk (List.replicate (w - s.length) '0' ++ s.data)
    | [] => String.mk (List.replicate w '0')

/-- Python `s.rjust(w, fill)` with a Python string as the fill argument,
which raises `TypeError` unless the fill is exactly one character.  This is
the only call in the two label helpers that has an error path at all. -/
def pyRjustChecked (s : String) (w : Nat) (fill : String) : Except String String :=
  match fill.data with
  | [c] => .ok (pyRjust s w c)
  | _ => .error "TypeError: the fill character must be exactly one character long"

/-! ### The notebook's local helper routines -/

/-- The band name built inside `create_band_names`:
`str(month).rjust(2,'0') + '-' + str(year) + '_VCI'`. -/
def bandName (month year : ℤ) : String :=
  pyRjust (pyStrInt month) 2 '0' ++ "-" ++ pyStrInt year ++ "_VCI"

/-- `create_band_names()`: the nested `for year ... for month ...` loop
appending `'mm-yyyy_VCI'` labels; it reads the globals `start_year`
and `end_year` and touches nothing else. -/
def create_band_names (g : Globals) : List String :=
  ((pyRange g.start_year (g.end_year + 1)).map fun year =>
    (pyRange 1 13).map fun month => bandName month year).flatten

/-- `text = [str(n).zfill(2) + "-" + str(y) for n in range(1, 13)]`:
the animation frame labels; it reads the global `y` and nothing else. -/
def text_labels (g : Globals) : List String :=
  (pyRange 1 13).map fun n => pyZfill (pyStrInt n) 2 ++ "-" ++ pyStrInt g.y

/-- One iteration of the inner loop of `create_band_names`, with the
Python-level error path of `rjust` kept explicit. -/
def bandNameStep (year : ℤ) (names : List String) (month : ℤ) : Except String (List String) := do
  let padded ← pyRjustChecked (pyStrInt month) 2 "0"
  pure (names ++ [padded ++ "-" ++ pyStrInt year ++ "_VCI"])

/-- `create_band_names` with the Python-level error path of `rjust`
made explicit: the nested loop runs in the `Except` monad. -/
def create_band_names_checked (g : Globals) : Except String (List String) :=
  (pyRange g.start_year (g.end_year + 1)).foldlM
    (fun names year => (pyRange 1 13).foldlM (bandNameStep year) names) []

/-- One iteration of the text-label comprehension; none of its operations
can raise. -/
def textStep (yv : ℤ) (acc : List String) (n : ℤ) : Except String (List String) :=
  pure (acc ++ [pyZfill (pyStrInt n) 2 ++ "-" ++ pyStrInt yv])

/-- The text-label comprehension run in the `Except` monad. -/
def text_labels_checked (g : Globals) : Except String (List String) :=
  (pyRange 1 13).foldlM (textStep g.y) []

/-! ### The pipeline stages -/

/-- The raw-data scale factor of the MODIS NDVI band. -/
def scaleFactor : ℚ := 1 / 10000

/-- The inner `monthly` function of `col2monthly`: filter the collection to
year `y` and month `m`, take the mean, and set the `month`/`year` properties. -/
def monthlyOf (col : List (Image Pix)) (y m : ℤ) : Image Pix :=
  setProp
    (setProp (eeMean (eeFilterCalendarRange (eeFilterCalendarRange col y y "year") m m "month"))
      "month" (.num m))
    "year" (.num y)

/-- `col2monthly(col)`: map the years to `yearly`, the months to `monthly`,
and flatten the per-year lists into one collection. -/
def col2monthly (g : Globals) (col : List (Image Pix)) : List (Image Pix) :=
  ((eeSequence g.start_year g.end_year).map fun y =>
    (eeSequence 1 12).map fun m => monthlyOf col y m).flatten

/-- The inner `monthly` function of `min_monthly`: per-calendar-month
minimum with `month` and `ID` properties. -/
def minImageOf (col : List (Image Pix)) (m : ℤ) : Image Pix :=
  setProp (setProp (eeMinCol (eeFilterCalendarRange col m m "month")) "month" (.num m))
    "ID" (.str (pyZfill (pyStrInt m) 2))

/-- The inner `monthly` function of `max_monthly`. -/
def maxImageOf (col : List (Image Pix)) (m : ℤ) : Image Pix :=
  setProp (setProp (eeMaxCol (eeFilterCalendarRange col m m "month")) "month" (.num m))
    "ID" (.str (pyZfill (pyStrInt m) 2))

/-- `min_monthly(col)`: one image per calendar month.  The notebook's
trailing `.flatten()` is the identity there, since `monthly` returns
single images rather than lists. -/
def min_monthly (col : List (Image Pix)) : List (Image Pix) :=
  (eeSequence 1 12).map fun m => minImageOf col m

/-- `max_monthly(col)`: one image per calendar month (the trailing
`.flatten()` of the notebook is again the identity). -/
def max_monthly (col : List (Image Pix)) : List (Image Pix) :=
  (eeSequence 1 12).map fun m => maxImageOf col m

/-- The inner `month_map` function of `vci_calc`: locate the monthly mean
and the per-month extrema by their properties, reduce each singleton
collection with `mean`, and apply `((x - min) / (max - min)) * 100`. -/
def vciImageOf (col maxVals minVals : List (Image Pix)) (y m : ℤ) : Image Pix :=
  let x := eeMean (eeFilterEq (eeFilterEq col "year" (.num y)) "month" (.num m))
  let maxX := eeMean (eeFilterEq maxVals "month" (.num m))
  let minX := eeMean (eeFilterEq minVals "month" (.num m))
  setProp
    (setProp
      (eeMulConst
        (eeDivImg (eeSub (eeSelectImg "NDVI" x) (eeSelectImg "NDVI" minX))
          (eeSub (eeSelectImg "NDVI" maxX) (eeSelectImg "NDVI" minX)))
        100)
      "month" (.num m))
    "year" (.num y)

/-- `vci_calc(col, max_vals, min_vals)`. -/
def vci_calc (g : Globals) (col maxVals minVals : List (Image Pix)) : List (Image Pix) :=
  ((eeSequence g.start_year g.end_year).map fun y =>
    (eeSequence 1 12).map fun m => vciImageOf col maxVals minVals y m).flatten

/-- The scale-factor map the notebook applies to the monthly and extrema
collections: `lambda image: image.multiply(0.0001).copyProperties(image,
image.propertyNames())`. -/
def scaleCopy (img : Image Pix) : Image Pix :=
  copyProperties (eeMulConst img scaleFactor) img (propertyNames img)

/-- `MODIS_NDVI`: the raw collection with the NDVI band selected, clipped
to the region of interest. -/
def MODIS_NDVI (roi : Pix → Bool) (raw : List (Image Pix)) : List (Image Pix) :=
  (raw.map (eeSelectImg "NDVI")).map (eeClip roi)

/-- `NDVI_Monthly`: monthly means of the raw collection, then the scale
factor with properties copied back. -/
def NDVI_Monthly (g : Globals) (roi : Pix → Bool) (raw : List (Image Pix)) :
    List (Image Pix) :=
  (col2monthly g (MODIS_NDVI roi raw)).map scaleCopy

/-- `NDVI_mon_min`: per-calendar-month minima of the raw collection, then
the scale factor with properties copied back. -/
def NDVI_mon_min (roi : Pix → Bool) (raw : List (Image Pix)) : List (Image Pix) :=
  (min_monthly (MODIS_NDVI roi raw)).map scaleCopy

/-- `NDVI_mon_max`. -/
def NDVI_mon_max (roi : Pix → Bool) (raw : List (Image Pix)) : List (Image Pix) :=
  (max_monthly (MODIS_NDVI roi raw)).map scaleCopy

/-- `image.select([old],[nw])` applied across a collection: rename the band. -/
def eeRenameImg (img : Image Pix) (old nw : String) : Image Pix :=
  if img.band = old then { img with band := nw } else { img with band := nw, pix := fun _ => none }

/-- `vci`: the VCI collection with the band renamed from NDVI to VCI. -/
def vciCol (g : Globals) (roi : Pix → Bool) (raw : List (Image Pix)) : List (Image Pix) :=
  (vci_calc g (NDVI_Monthly g roi raw) (NDVI_mon_max roi raw) (NDVI_mon_min roi raw)).map
    fun img => eeRenameImg img "NDVI" "VCI"

/-- `vci.toBands()`: one band per image, named `i_band` by position. -/
def toBands (col : List (Image Pix)) : List (String × (Pix → Option ℚ)) :=
  col.enum.map fun ip => (pyStrNat ip.1 ++ "_" ++ ip.2.band, ip.2.pix)

/-- The visualization / video parameters of the animation cell. -/
structure VideoArgs where
  dimensions : ℤ
  framesPerSecond : ℤ
  crs : String
  min : ℚ
  max : ℚ
  palette : List String

/-- `videoArgs` as defined in the notebook (value range 0-100). -/
def videoArgs (g : Globals) : VideoArgs :=
  { dimensions := 800, framesPerSecond := g.fps, crs := "EPSG:3857",
    min := 0, max := 100, palette := ["red", "yellow", "green"] }

/-- `video_vci = vci.filter(ee.Filter.eq('year', y))`: the animated frames. -/
def video_vci (g : Globals) (roi : Pix → Bool) (raw : List (Image Pix)) : List (Image Pix) :=
  eeFilterEq (vciCol g roi raw) "year" (.num g.y)

/-! ### Specification-side readings of the data

These re-state, directly in terms of the dated raw images, the quantities
the spec's VCI formula speaks about: the scaled NDVI samples of a calendar
month (of one year, of all years, or of the years of the configured range),
their mean, minimum and maximum. -/

/-- The true (scale-factored) NDVI samples at pixel `p` among the dated
images selected by `keep`. -/
def ndviSamples (col : List (Image Pix)) (keep : MDate → Bool) (p : Pix) : List ℚ :=
  ((col.filter fun img => (img.date.map keep).getD false).filterMap fun img => img.pix p).map
    fun v => v * scaleFactor

/-- The monthly-mean NDVI value for month `m` of year `yr` at pixel `p`. -/
def specMonthlyMean (col : List (Image Pix)) (yr m : ℤ) (p : Pix) : Option ℚ :=
  listMean (ndviSamples col (fun d => decide (d.year = yr ∧ d.month = m)) p)

/-- The minimum NDVI for calendar month `m` over all years present in the
collection, at pixel `p`. -/
def specMonthMin (col : List (Image Pix)) (m : ℤ) (p : Pix) : Option ℚ :=
  listMin (ndviSamples col (fun d => decide (d.month = m)) p)

/-- The maximum NDVI for calendar month `m` over all years present in the
collection, at pixel `p`. -/
def specMonthMax (col : List (Image Pix)) (m : ℤ) (p : Pix) : Option ℚ :=
  listMax (ndviSamples col (fun d => decide (d.month = m)) p)

/-- The minimum NDVI for calendar month `m` over the years of the range
`[a, b]` only — the reading the spec sentence asserts. -/
def specMonthMinInRange (a b : ℤ) (col : List (Image Pix)) (m : ℤ) (p : Pix) : Option ℚ :=
  listMin (ndviSamples col (fun d => decide (d.month = m ∧ a ≤ d.year ∧ d.year ≤ b)) p)

/-- The maximum NDVI for calendar month `m` over the years of the range
`[a, b]` only. -/
def specMonthMaxInRange (a b : ℤ) (col : List (Image Pix)) (m : ℤ) (p : Pix) : Option ℚ :=
  listMax (ndviSamples col (fun d => decide (d.month = m ∧ a ≤ d.year ∧ d.year ≤ b)) p)

/-- The raw (unscaled) mean of the input images dated in year `yr` and
month `m`, at pixel `p`: what `col2monthly` should put at slot `(yr, m)`. -/
def specRawMonthlyMean (col : List (Image Pix)) (yr m : ℤ) (p : Pix) : Option ℚ :=
  listMean ((col.filter fun img => decide (img.date = some (MDate.mk yr m))).filterMap
    fun img => img.pix p)

/-- The three-way guard of the VCI pixel computation: defined only where
the monthly mean and both extrema are defined. -/
def vciFormula (xo mno mxo : Option ℚ) : Option ℚ :=
  match xo, mno, mxo with
  | some x, some mn, some mx => some (eeDivVal (x - mn) (mx - mn) * 100)
  | _, _, _ => none

/-! ### Concrete data used by witnesses and counterexamples -/

/-- A trivial region of interest over a one-pixel grid. -/
def roiAll : Unit → Bool := fun _ => true

/-- A constant raw NDVI image with a given acquisition date. -/
def mkRaw (v : ℚ) (yy mm : ℤ) : Image Unit :=
  { pix := fun _ => some v, band := "NDVI", props := [], date := some ⟨yy, mm⟩ }

/-- Two January acquisitions of the same year with raw values 0 and 10000. -/
def rawB : List (Image Unit) := [mkRaw 0 2001 1, mkRaw 10000 2001 1]

/-- A one-year configuration. -/
def gB : Globals := { start_year := 2001, end_year := 2001, y := 2001, fps := 2 }

/-- January acquisitions of 2000, 2001 and 2002 with raw values 0, 5000, 10000. -/
def rawA : List (Image Unit) := [mkRaw 0 2000 1, mkRaw 5000 2001 1, mkRaw 10000 2002 1]

/-- A 2001-2002 configuration (the collection also holds year 2000 data). -/
def gA : Globals := { start_year := 2001, end_year := 2002, y := 2001, fps := 2 }

/-- One raw acquisition in every month of 2001. -/
def raw12 : List (Image Unit) :=
  (eeSequence 1 12).map fun m =>
    { pix := fun _ => some ((100 * m : ℤ) : ℚ), band := "NDVI", props := [],
      date := some ⟨2001, m⟩ }

/-- The first image of the VCI collection built from `rawB`:
the (2001, January) VCI image. -/
def wImg : Image Unit := (vciCol gB roiAll rawB).getD 0 default

/-- A context with the notebook's configuration values. -/
def gW1 : Globals := ⟨2001, 2022, 2022, 2⟩

/-- A context agreeing with `gW1` on the year range but not on the rest. -/
def gW2 : Globals := ⟨2001, 2022, 1999, 60⟩

/-- A context agreeing with `gW1` on the animated year only. -/
def gW3 : Globals := ⟨1980, 1990, 2022, 99⟩

/-- Numeric value of a decimal digit character (proof support). -/
def charVal (c : Char) : ℕ := c.toNat - 48

/-- Decode a most-significant-first digit string (proof support: a left
inverse of `natChars`). -/
def charsToNat (l : List Char) : ℕ := l.foldl (fun a c => 10 * a + charVal c) 0

/-! ### Lemmas: decimal strings -/

theorem charVal_digitChar : ∀ d : ℕ, d < 10 → charVal (digitChar d) = d := by decide

theorem charsToNat_append_digit (l : List Char) (c : Char) :
    charsToNat (l ++ [c]) = 10 * charsToNat l + charVal c := by
  simp [charsToNat, List.foldl_append]

theorem charsToNat_natChars : ∀ f n : ℕ, n < f → charsToNat (natChars f n) = n := by
  intro f
  induction f with
  | zero => intro n h; omega
  | succ f ih =>
    intro n h
    by_cases h10 : n < 10
    · simp [natChars, h10, charsToNat, charVal_digitChar n h10]
    · have hd : n / 10 < f := by omega
      simp only [natChars, h10, if_false]
      rw [charsToNat_append_digit, ih _ hd, charVal_digitChar _ (by omega)]
      omega

theorem pyStrNat_inj {a b : ℕ} (h : pyStrNat a = pyStrNat b) : a = b := by
  have h2 : charsToNat (natChars (a + 1) a) = charsToNat (natChars (b + 1) b) :=
    congrArg (fun s => charsToNat s.data) h
  rw [charsToNat_natChars _ _ (Nat.lt_succ_self a),
    charsToNat_natChars _ _ (Nat.lt_succ_self b)] at h2
  exact h2

theorem natChars_digits : ∀ f n c, c ∈ natChars f n → ∃ d, d < 10 ∧ c = digitChar d := by
  intro f
  induction f with
  | zero => intro n c hc; simp [natChars] at hc
  | succ f ih =>
    intro n c hc
    by_cases h10 : n < 10
    · simp [natChars, h10] at hc
      exact ⟨n, h10, hc⟩
    · simp only [natChars, h10, if_false, List.mem_append, List.mem_singleton] at hc
      rcases hc with hc | hc
      · exact ih _ _ hc
      · exact ⟨n % 10, by omega, hc⟩

theorem natChars_ne_nil (f n : ℕ) (h : n < f) : natChars f n ≠ [] := by
  cases f with
  | zero => omega
  | succ f => by_cases h10 : n < 10 <;> simp [natChars, h10]

theorem digitChar_ne_dash : ∀ d : ℕ, d < 10 → digitChar d ≠ '-' := by decide

theorem string_ext {s t : String} (h : s.data = t.data) : s = t := by
  cases s; cases t; exact congrArg String.mk h

theorem dash_not_mem_natChars (f n : ℕ) : '-' ∉ natChars f n := by
  intro h
  obtain ⟨d, hd, hc⟩ := natChars_digits f n '-' h
  exact digitChar_ne_dash d hd hc.symm

theorem pyStrInt_inj {z w : ℤ} (h : pyStrInt z = pyStrInt w) : z = w := by
  unfold pyStrInt at h
  by_cases hz : z < 0 <;> by_cases hw : w < 0 <;> simp only [hz, hw, if_true, if_false] at h
  · have hd : ('-' :: natChars (z.natAbs + 1) z.natAbs)
        = ('-' :: natChars (w.natAbs + 1) w.natAbs) := by
      have := congrArg String.data h
      simpa [pyStrNat, String.data_append] using this
    have h2 : pyStrNat z.natAbs = pyStrNat w.natAbs := by
      unfold pyStrNat
      injection hd with h1 h2
      exact congrArg String.mk h2
    have := pyStrNat_inj h2
    omega
  · exfalso
    have hd := congrArg String.data h
    simp [pyStrNat, String.data_append] at hd
    have : '-' ∈ natChars (w.toNat + 1) w.toNat := by
      rw [← hd]; exact List.mem_cons_self _ _
    exact dash_not_mem_natChars _ _ this
  · exfalso
    have hd := congrArg String.data h
    simp [pyStrNat, String.data_append] at hd
    have : '-' ∈ natChars (z.toNat + 1) z.toNat := by
      rw [hd]; exact List.mem_cons_self _ _
    exact dash_not_mem_natChars _ _ this
  · have := pyStrNat_inj (h : pyStrNat z.toNat = pyStrNat w.toNat)
    omega

/-! ### Lemmas: sequences and ranges -/

theorem mem_eeSequence {a b z : ℤ} : z ∈ eeSequence a b ↔ a ≤ z ∧ z ≤ b := by
  simp only [eeSequence, List.mem_map, List.mem_range]
  constructor
  · rintro ⟨i, hi, rfl⟩
    constructor <;> omega
  · rintro ⟨h1, h2⟩
    exact ⟨(z - a).toNat, by omega, by omega⟩

theorem eeSequence_nodup (a b : ℤ) : (eeSequence a b).Nodup := by
  unfold eeSequence
  refine List.Nodup.map ?_ (List.nodup_range _)
  intro i j hij
  have h2 : a + (i : ℤ) = a + (j : ℤ) := hij
  omega

theorem eeSequence_length (a b : ℤ) : (eeSequence a b).length = (b - a + 1).toNat := by
  simp [eeSequence]

theorem eeSequence_getD (a b : ℤ) (i : ℕ) (hi : i < (eeSequence a b).length) :
    (eeSequence a b).getD i 0 = a + i := by
  unfold eeSequence at hi ⊢
  rw [List.getD_eq_getElem _ _ hi]
  simp

theorem pyRange_eq_eeSequence (a b : ℤ) : pyRange a (b + 1) = eeSequence a b := by
  unfold pyRange eeSequence
  have h : (b + 1 - a).toNat = (b - a + 1).toNat := by omega
  rw [h]

theorem pyRange13_eq : pyRange 1 13 = eeSequence 1 12 := by decide

theorem pyRange_nodup (a b : ℤ) : (pyRange a b).Nodup := by
  unfold pyRange
  refine List.Nodup.map ?_ (List.nodup_range _)
  intro i j hij
  have h2 : a + (i : ℤ) = a + (j : ℤ) := hij
  omega

/-! ### Lemmas: generic list machinery -/

theorem map_eq_flatten_singleton {α β : Type} (l : List α) (g : α → β) :
    l.map g = (l.map fun a => [g a]).flatten := by
  induction l with
  | nil => rfl
  | cons a t ih => simp [ih]

theorem filter_flatten_single {β : Type} (ys : List ℤ) (f : ℤ → List β) (p : β → Bool) (z : ℤ)
    (hnd : ys.Nodup) (hz : z ∈ ys)
    (hp : ∀ w ∈ ys, ∀ b ∈ f w, p b = decide (w = z)) :
    ((ys.map f).flatten).filter p = f z := by
  induction ys with
  | nil => simp at hz
  | cons a t ih =>
    rw [List.map_cons, List.flatten_cons, List.filter_append]
    rcases List.mem_cons.mp hz with hza | hz2
    · subst hza
      have h1 : (f z).filter p = f z := by
        refine List.filter_eq_self.mpr fun b hb => ?_
        rw [hp z (List.mem_cons_self z t) b hb]
        simp
      have h2 : ((t.map f).flatten).filter p = [] := by
        refine List.filter_eq_nil_iff.mpr fun b hb => ?_
        obtain ⟨s, hs, hbs⟩ := List.mem_flatten.mp hb
        obtain ⟨w, hw, rfl⟩ := List.mem_map.mp hs
        rw [hp w (List.mem_cons_of_mem z hw) b hbs]
        have hwz : w ≠ z := by
          intro h
          subst h
          exact (List.nodup_cons.mp hnd).1 hw
        simp [hwz]
      rw [h1, h2, List.append_nil]
    · have ha : a ≠ z := by
        intro h
        subst h
        exact (List.nodup_cons.mp hnd).1 hz2
      have h1 : (f a).filter p = [] := by
        refine List.filter_eq_nil_iff.mpr fun b hb => ?_
        rw [hp a (List.mem_cons_self a t) b hb]
        simp [ha]
      rw [h1, List.nil_append]
      exact ih (List.nodup_cons.mp hnd).2 hz2 fun w hw => hp w (List.mem_cons_of_mem a hw)

theorem filter_map_single {β : Type} (ys : List ℤ) (g : ℤ → β) (p : β → Bool) (z : ℤ)
    (hnd : ys.Nodup) (hz : z ∈ ys)
    (hp : ∀ w ∈ ys, p (g w) = decide (w = z)) :
    (ys.map g).filter p = [g z] := by
  rw [map_eq_flatten_singleton ys g]
  refine filter_flatten_single ys (fun w => [g w]) p z hnd hz ?_
  intro w hw b hb
  rw [List.mem_singleton.mp hb]
  exact hp w hw

theorem flatten_map_length {α β : Type} (ys : List β) (f : β → List α) (k : ℕ)
    (h : ∀ y2 ∈ ys, (f y2).length = k) : ((ys.map f).flatten).length = k * ys.length := by
  induction ys with
  | nil => simp
  | cons a t ih =>
    rw [List.map_cons, List.flatten_cons, List.length_append,
      h a (List.mem_cons_self a t), ih fun y2 hy2 => h y2 (List.mem_cons_of_mem a hy2)]
    simp [Nat.mul_succ]
    omega

theorem flatten_map_getD {α β : Type} (ys : List β) (f : β → List α) (k i j : ℕ) (d : α)
    (dy : β) (hall : ∀ y2 ∈ ys, (f y2).length = k) (hi : i < ys.length) (hj : j < k) :
    ((ys.map f).flatten).getD (k * i + j) d = (f (ys.getD i dy)).getD j d := by
  induction ys generalizing i with
  | nil => simp at hi
  | cons a t ih =>
    rw [List.map_cons, List.flatten_cons]
    cases i with
    | zero =>
      have hfa := hall a (List.mem_cons_self a t)
      rw [Nat.mul_zero, Nat.zero_add]
      rw [List.getD_eq_getElem?_getD, List.getElem?_append_left (by omega),
        ← List.getD_eq_getElem?_getD]
      simp
    | succ i2 =>
      have hfa := hall a (List.mem_cons_self a t)
      have harith : k * (i2 + 1) + j = (f a).length + (k * i2 + j) := by
        rw [hfa]; ring
      rw [harith, List.getD_eq_getElem?_getD, List.getElem?_append_right (by omega),
        Nat.add_sub_cancel_left, ← List.getD_eq_getElem?_getD]
      have := ih i2 (fun y2 hy2 => hall y2 (List.mem_cons_of_mem a hy2)) (by simpa using hi)
      simpa using this

/-! ### Lemmas: bounds of the list reducers -/

theorem foldl_min_le_init (t : List ℚ) : ∀ a : ℚ, t.foldl min a ≤ a := by
  induction t with
  | nil => intro a; simp
  | cons b t ih =>
    intro a
    calc t.foldl min (min a b) ≤ min a b := ih (min a b)
    _ ≤ a := min_le_left a b

theorem foldl_min_le_mem (t : List ℚ) (x : ℚ) (hx : x ∈ t) : ∀ a : ℚ, t.foldl min a ≤ x := by
  induction t with
  | nil => simp at hx
  | cons b t ih =>
    intro a
    rcases List.mem_cons.mp hx with rfl | hx2
    · calc t.foldl min (min a x) ≤ min a x := foldl_min_le_init t (min a x)
      _ ≤ x := min_le_right a x
    · exact ih hx2 (min a b)

theorem le_foldl_max_init (t : List ℚ) : ∀ a : ℚ, a ≤ t.foldl max a := by
  induction t with
  | nil => intro a; simp
  | cons b t ih =>
    intro a
    calc a ≤ max a b := le_max_left a b
    _ ≤ t.foldl max (max a b) := ih (max a b)

theorem mem_le_foldl_max (t : List ℚ) (x : ℚ) (hx : x ∈ t) : ∀ a : ℚ, x ≤ t.foldl max a := by
  induction t with
  | nil => simp at hx
  | cons b t ih =>
    intro a
    rcases List.mem_cons.mp hx with rfl | hx2
    · calc x ≤ max a x := le_max_right a x
      _ ≤ t.foldl max (max a x) := le_foldl_max_init t (max a x)
    · exact ih hx2 (max a b)

theorem listMin_le_mem {l : List ℚ} {v x : ℚ} (h : listMin l = some v) (hx : x ∈ l) : v ≤ x := by
  cases l with
  | nil => simp at hx
  | cons a t =>
    simp only [listMin, Option.some.injEq] at h
    subst h
    rcases List.mem_cons.mp hx with rfl | hx2
    · exact foldl_min_le_init t x
    · exact foldl_min_le_mem t x hx2 a

theorem mem_le_listMax {l : List ℚ} {v x : ℚ} (h : listMax l = some v) (hx : x ∈ l) : x ≤ v := by
  cases l with
  | nil => simp at hx
  | cons a t =>
    simp only [listMax, Option.some.injEq] at h
    subst h
    rcases List.mem_cons.mp hx with rfl | hx2
    · exact le_foldl_max_init t x
    · exact mem_le_foldl_max t x hx2 a

theorem listMin_isSome {l : List ℚ} (h : l ≠ []) : ∃ v, listMin l = some v := by
  cases l with
  | nil => exact absurd rfl h
  | cons a t => exact ⟨t.foldl min a, rfl⟩

theorem listMax_isSome {l : List ℚ} (h : l ≠ []) : ∃ v, listMax l = some v := by
  cases l with
  | nil => exact absurd rfl h
  | cons a t => exact ⟨t.foldl max a, rfl⟩

theorem listMean_ne_nil {l : List ℚ} {x : ℚ} (h : listMean l = some x) : l ≠ [] := by
  intro hnil
  subst hnil
  simp [listMean] at h

theorem lo_mul_len_le_sum (l : List ℚ) (lo : ℚ) (hlo : ∀ a ∈ l, lo ≤ a) :
    lo * l.length ≤ l.sum := by
  induction l with
  | nil => simp
  | cons a t ih =>
    have h1 : lo ≤ a := hlo a (List.mem_cons_self a t)
    have h2 := ih fun b hb => hlo b (List.mem_cons_of_mem a hb)
    rw [List.sum_cons, List.length_cons]
    push_cast
    nlinarith

theorem sum_le_hi_mul_len (l : List ℚ) (hi : ℚ) (hhi : ∀ a ∈ l, a ≤ hi) :
    l.sum ≤ hi * l.length := by
  induction l with
  | nil => simp
  | cons a t ih =>
    have h1 : a ≤ hi := hhi a (List.mem_cons_self a t)
    have h2 := ih fun b hb => hhi b (List.mem_cons_of_mem a hb)
    rw [List.sum_cons, List.length_cons]
    push_cast
    nlinarith

theorem le_listMean {l : List ℚ} {x lo : ℚ} (h : listMean l = some x)
    (hlo : ∀ a ∈ l, lo ≤ a) : lo ≤ x := by
  cases l with
  | nil => simp [listMean] at h
  | cons a t =>
    simp only [listMean, Option.some.injEq] at h
    subst h
    have hlen : (0 : ℚ) < (a :: t).length := by
      simp
      positivity
    rw [le_div_iff₀ hlen]
    exact lo_mul_len_le_sum (a :: t) lo hlo

theorem listMean_le {l : List ℚ} {x hi : ℚ} (h : listMean l = some x)
    (hhi : ∀ a ∈ l, a ≤ hi) : x ≤ hi := by
  cases l with
  | nil => simp [listMean] at h
  | cons a t =>
    simp only [listMean, Option.some.injEq] at h
    subst h
    have hlen : (0 : ℚ) < (a :: t).length := by
      simp
      positivity
    rw [div_le_iff₀ hlen]
    calc (a :: t).sum ≤ hi * (a :: t).length := sum_le_hi_mul_len (a :: t) hi hhi
    _ = hi * (a :: t).length := rfl

/-! ### Lemmas: the scale factor commutes with the reducers -/

theorem min_mul_scaleFactor (x y2 : ℚ) :
    min (x * scaleFactor) (y2 * scaleFactor) = min x y2 * scaleFactor := by
  have hpos : (0 : ℚ) < scaleFactor := by norm_num [scaleFactor]
  rcases le_total x y2 with h | h
  · rw [min_eq_left h, min_eq_left (by exact mul_le_mul_of_nonneg_right h hpos.le)]
  · rw [min_eq_right h, min_eq_right (by exact mul_le_mul_of_nonneg_right h hpos.le)]

theorem max_mul_scaleFactor (x y2 : ℚ) :
    max (x * scaleFactor) (y2 * scaleFactor) = max x y2 * scaleFactor := by
  have hpos : (0 : ℚ) < scaleFactor := by norm_num [scaleFactor]
  rcases le_total x y2 with h | h
  · rw [max_eq_right h, max_eq_right (by exact mul_le_mul_of_nonneg_right h hpos.le)]
  · rw [max_eq_left h, max_eq_left (by exact mul_le_mul_of_nonneg_right h hpos.le)]

theorem foldl_min_map_scale (t : List ℚ) : ∀ a : ℚ,
    (t.map fun v => v * scaleFactor).foldl min (a * scaleFactor) = (t.foldl min a) * scaleFactor := by
  induction t with
  | nil => intro a; rfl
  | cons b t ih =>
    intro a
    rw [List.map_cons, List.foldl_cons, List.foldl_cons, min_mul_scaleFactor, ih]

theorem foldl_max_map_scale (t : List ℚ) : ∀ a : ℚ,
    (t.map fun v => v * scaleFactor).foldl max (a * scaleFactor) = (t.foldl max a) * scaleFactor := by
  induction t with
  | nil => intro a; rfl
  | cons b t ih =>
    intro a
    rw [List.map_cons, List.foldl_cons, List.foldl_cons, max_mul_scaleFactor, ih]

theorem listMin_map_scale (l : List ℚ) :
    listMin (l.map fun v => v * scaleFactor) = (listMin l).map fun v => v * scaleFactor := by
  cases l with
  | nil => rfl
  | cons a t => simp [listMin, foldl_min_map_scale]

theorem listMax_map_scale (l : List ℚ) :
    listMax (l.map fun v => v * scaleFactor) = (listMax l).map fun v => v * scaleFactor := by
  cases l with
  | nil => rfl
  | cons a t => simp [listMax, foldl_max_map_scale]

theorem sum_map_scale (l : List ℚ) : (l.map fun v => v * scaleFactor).sum = l.sum * scaleFactor := by
  induction l with
  | nil => simp
  | cons a t ih =>
    rw [List.map_cons, List.sum_cons, List.sum_cons, ih]
    ring

theorem listMean_map_scale (l : List ℚ) :
    listMean (l.map fun v => v * scaleFactor) = (listMean l).map fun v => v * scaleFactor := by
  cases l with
  | nil => rfl
  | cons a t =>
    show some (((a :: t).map fun v => v * scaleFactor).sum
        / (((a :: t).map fun v => v * scaleFactor).length : ℚ))
      = some ((a :: t).sum / ((a :: t).length : ℚ) * scaleFactor)
    rw [sum_map_scale, List.length_map, mul_div_right_comm]

/-! ### Lemmas: metadata properties -/

theorem lookupProp_cons_self (l : List (String × PVal)) (k : String) (v : PVal) :
    lookupProp ((k, v) :: l) k = some v := by
  simp [lookupProp, List.find?_cons_of_pos]

theorem lookupProp_cons_ne (l : List (String × PVal)) (k k2 : String) (v : PVal)
    (h : k ≠ k2) : lookupProp ((k, v) :: l) k2 = lookupProp l k2 := by
  unfold lookupProp
  rw [List.find?_cons_of_neg]
  simpa using h

theorem getProp_setProp_self (img : Image Pix) (k : String) (v : PVal) :
    getProp (setProp img k v) k = some v := by
  unfold getProp setProp
  exact lookupProp_cons_self _ _ _

theorem getProp_setProp_ne (img : Image Pix) (k k2 : String) (v : PVal) (h : k ≠ k2) :
    getProp (setProp img k v) k2 = getProp img k2 := by
  unfold getProp setProp
  exact lookupProp_cons_ne _ _ _ _ h

theorem lookupProp_build (gf : String → Option PVal) (names : List String) (k : String) :
    lookupProp (names.filterMap fun n => (gf n).map fun v => (n, v)) k
      = if k ∈ names then gf k else none := by
  induction names with
  | nil => simp [lookupProp]
  | cons n t ih =>
    rw [List.filterMap_cons]
    cases hg : gf n with
    | none =>
      simp only [Option.map_none']
      rw [ih]
      by_cases hn : n = k
      · subst hn
        simp [hg]
      · have hkn : ¬ k = n := fun h => hn h.symm
        simp [List.mem_cons, hkn]
    | some v =>
      simp only [Option.map_some']
      by_cases hn : n = k
      · subst hn
        rw [lookupProp_cons_self]
        simp [hg, List.mem_cons]
      · rw [lookupProp_cons_ne _ _ _ _ hn, ih]
        have hkn : ¬ k = n := fun h => hn h.symm
        simp [List.mem_cons, hkn]

theorem lookupProp_eq_none (l : List (String × PVal)) (k : String)
    (h : k ∉ l.map Prod.fst) : lookupProp l k = none := by
  induction l with
  | nil => rfl
  | cons a t ih =>
    simp only [List.map_cons, List.mem_cons] at h
    push_neg at h
    obtain ⟨a1, a2⟩ := a
    rw [lookupProp_cons_ne _ _ _ _ fun he => h.1 he.symm]
    exact ih h.2

theorem scaleCopy_getProp (img : Image Pix) (k : String) :
    getProp (scaleCopy img) k = getProp img k := by
  show lookupProp _ k = lookupProp img.props k
  unfold scaleCopy copyProperties eeMulConst propertyNames
  simp only [List.append_nil]
  have hb := lookupProp_build (fun n => getProp img n) (img.props.map (·.1)) k
  by_cases hk : k ∈ img.props.map Prod.fst
  · rw [hb]
    simp only [hk, if_true]
    rfl
  · rw [hb]
    simp only [hk, if_false]
    exact (lookupProp_eq_none _ _ hk).symm

theorem scaleCopy_pix (img : Image Pix) (p : Pix) :
    (scaleCopy img).pix p = (img.pix p).map fun v => v * scaleFactor := rfl

theorem scaleCopy_band (img : Image Pix) : (scaleCopy img).band = img.band := rfl

theorem scaleCopy_date (img : Image Pix) : (scaleCopy img).date = img.date := rfl

/-! ### Lemmas: pixel behaviour of the image operations -/

theorem eeMean_singleton_pix (img : Image Pix) (p : Pix) :
    (eeMean [img]).pix p = img.pix p := by
  show listMean ([img].filterMap fun img2 => img2.pix p) = img.pix p
  cases h : img.pix p with
  | none => simp [List.filterMap, h, listMean]
  | some v =>
    simp only [List.filterMap, h]
    show listMean [v] = some v
    simp [listMean]

theorem eeMean_singleton_band (img : Image Pix) : (eeMean [img]).band = img.band := rfl

theorem eeSelectImg_pix (b : String) (img : Image Pix) (p : Pix) :
    (eeSelectImg b img).pix p = if img.band = b then img.pix p else none := by
  unfold eeSelectImg
  by_cases h : img.band = b <;> simp [h]

theorem eeSelectImg_band (b : String) (img : Image Pix) : (eeSelectImg b img).band = b := by
  unfold eeSelectImg
  by_cases h : img.band = b <;> simp [h]

theorem MODIS_NDVI_band (roi : Pix → Bool) (raw : List (Image Pix)) (img : Image Pix)
    (h : img ∈ MODIS_NDVI roi raw) : img.band = "NDVI" := by
  simp only [ MODIS_NDVI, List.mem_map] at h
  obtain ⟨im2, ⟨im3, _, rfl⟩, rfl⟩ := h
  show (eeClip roi (eeSelectImg "NDVI" im3)).band = "NDVI"
  show (eeSelectImg "NDVI" im3).band = "NDVI"
  exact eeSelectImg_band _ _

/-- The two nested `calendarRange` filters of `monthlyOf` keep exactly the
images dated in year `yy` and month `m`. -/
theorem calRange_year_month (col : List (Image Pix)) (yy m : ℤ) :
    eeFilterCalendarRange (eeFilterCalendarRange col yy yy "year") m m "month"
      = col.filter fun img => decide (img.date = some (MDate.mk yy m)) := by
  unfold eeFilterCalendarRange
  rw [List.filter_filter]
  refine List.filter_congr fun img _ => ?_
  cases hd : img.date with
  | none => simp
  | some d =>
    obtain ⟨dy, dm⟩ := d
    simp only [calField]
    by_cases hy : dy = yy <;> by_cases hm : dm = m
    · subst hy; subst hm
      simp [MDate.mk.injEq]
    · subst hy
      have h1 : ¬ (m ≤ dm ∧ dm ≤ m) := by omega
      simp [h1, hm]
    · subst hm
      have h1 : ¬ (yy ≤ dy ∧ dy ≤ yy) := by omega
      simp [h1, hy]
    · have h1 : ¬ (yy ≤ dy ∧ dy ≤ yy) := by omega
      simp [h1, hy]

/-- The single `calendarRange` month filter keeps exactly the images dated
in calendar month `m`. -/
theorem calRange_month (col : List (Image Pix)) (m : ℤ) :
    eeFilterCalendarRange col m m "month"
      = col.filter fun img => ((img.date.map fun d => decide (d.month = m)).getD false) := by
  unfold eeFilterCalendarRange
  refine List.filter_congr fun img _ => ?_
  cases hd : img.date with
  | none => simp
  | some d =>
    obtain ⟨dy, dm⟩ := d
    simp only [calField, Option.map_some', Option.getD_some]
    by_cases hm : dm = m
    · subst hm
      simp
    · have h1 : ¬ (m ≤ dm ∧ dm ≤ m) := by omega
      simp [h1, hm]

/-! ### Lemmas: metadata of the generated images -/

theorem monthlyOf_getProp_year (col : List (Image Pix)) (yy m : ℤ) :
    getProp (monthlyOf col yy m) "year" = some (.num yy) :=
  getProp_setProp_self _ _ _

theorem monthlyOf_getProp_month (col : List (Image Pix)) (yy m : ℤ) :
    getProp (monthlyOf col yy m) "month" = some (.num m) := by
  unfold monthlyOf
  rw [getProp_setProp_ne _ _ _ _ (by decide), getProp_setProp_self]

theorem minImageOf_getProp_month (col : List (Image Pix)) (m : ℤ) :
    getProp (minImageOf col m) "month" = some (.num m) := by
  unfold minImageOf
  rw [getProp_setProp_ne _ _ _ _ (by decide), getProp_setProp_self]

theorem maxImageOf_getProp_month (col : List (Image Pix)) (m : ℤ) :
    getProp (maxImageOf col m) "month" = some (.num m) := by
  unfold maxImageOf
  rw [getProp_setProp_ne _ _ _ _ (by decide), getProp_setProp_self]

theorem vciImageOf_getProp_year (col maxVals minVals : List (Image Pix)) (yy m : ℤ) :
    getProp (vciImageOf col maxVals minVals yy m) "year" = some (.num yy) :=
  getProp_setProp_self _ _ _

theorem vciImageOf_getProp_month (col maxVals minVals : List (Image Pix)) (yy m : ℤ) :
    getProp (vciImageOf col maxVals minVals yy m) "month" = some (.num m) := by
  unfold vciImageOf
  rw [getProp_setProp_ne _ _ _ _ (by decide), getProp_setProp_self]

theorem vciImageOf_band (col maxVals minVals : List (Image Pix)) (yy m : ℤ) :
    (vciImageOf col maxVals minVals yy m).band = "NDVI" := by
  show (eeSelectImg "NDVI" _).band = "NDVI"
  exact eeSelectImg_band _ _

theorem eeRenameImg_props (img : Image Pix) (old nw : String) :
    (eeRenameImg img old nw).props = img.props := by
  unfold eeRenameImg
  by_cases h : img.band = old <;> simp [h]

theorem eeRenameImg_pix_of_band (img : Image Pix) (old nw : String) (h : img.band = old) :
    (eeRenameImg img old nw).pix = img.pix := by
  unfold eeRenameImg
  simp [h]

/-! ### Lemmas: the pipeline collections in closed form -/

theorem NDVI_Monthly_eq (g : Globals) (roi : Pix → Bool) (raw : List (Image Pix)) :
    NDVI_Monthly g roi raw
      = ((eeSequence g.start_year g.end_year).map fun yy =>
          (eeSequence 1 12).map fun m => scaleCopy (monthlyOf (MODIS_NDVI roi raw) yy m)).flatten := by
  unfold NDVI_Monthly col2monthly
  rw [List.map_flatten, List.map_map]
  congr 1

theorem NDVI_mon_min_eq (roi : Pix → Bool) (raw : List (Image Pix)) :
    NDVI_mon_min roi raw
      = (eeSequence 1 12).map fun m => scaleCopy (minImageOf (MODIS_NDVI roi raw) m) := by
  unfold NDVI_mon_min min_monthly
  rw [List.map_map]
  rfl

theorem NDVI_mon_max_eq (roi : Pix → Bool) (raw : List (Image Pix)) :
    NDVI_mon_max roi raw
      = (eeSequence 1 12).map fun m => scaleCopy (maxImageOf (MODIS_NDVI roi raw) m) := by
  unfold NDVI_mon_max max_monthly
  rw [List.map_map]
  rfl

/-! ### Lemmas: the property filters locate single images -/

theorem filterEq_NDVI_Monthly (g : Globals) (roi : Pix → Bool) (raw : List (Image Pix))
    (yy m : ℤ) (hy : yy ∈ eeSequence g.start_year g.end_year) (hm : m ∈ eeSequence 1 12) :
    eeFilterEq (eeFilterEq (NDVI_Monthly g roi raw) "year" (.num yy)) "month" (.num m)
      = [scaleCopy (monthlyOf (MODIS_NDVI roi raw) yy m)] := by
  rw [NDVI_Monthly_eq]
  unfold eeFilterEq
  have h1 : (((eeSequence g.start_year g.end_year).map fun yy2 =>
        (eeSequence 1 12).map fun m2 => scaleCopy (monthlyOf (MODIS_NDVI roi raw) yy2 m2)).flatten).filter
          (fun img => decide (getProp img "year" = some (.num yy)))
      = (eeSequence 1 12).map fun m2 => scaleCopy (monthlyOf (MODIS_NDVI roi raw) yy m2) := by
    refine filter_flatten_single _ _ _ yy (eeSequence_nodup _ _) hy ?_
    intro w hw b hb
    obtain ⟨m2, hm2, rfl⟩ := List.mem_map.mp hb
    rw [scaleCopy_getProp, monthlyOf_getProp_year]
    simp [decide_eq_decide]
  rw [h1]
  refine filter_map_single _ _ _ m (eeSequence_nodup _ _) hm ?_
  intro w hw
  rw [scaleCopy_getProp, monthlyOf_getProp_month]
  simp [decide_eq_decide]

theorem filterEq_mon_min (roi : Pix → Bool) (raw : List (Image Pix)) (m : ℤ)
    (hm : m ∈ eeSequence 1 12) :
    eeFilterEq (NDVI_mon_min roi raw) "month" (.num m)
      = [scaleCopy (minImageOf (MODIS_NDVI roi raw) m)] := by
  rw [NDVI_mon_min_eq]
  unfold eeFilterEq
  refine filter_map_single _ _ _ m (eeSequence_nodup _ _) hm ?_
  intro w hw
  rw [scaleCopy_getProp, minImageOf_getProp_month]
  simp [decide_eq_decide]

theorem filterEq_mon_max (roi : Pix → Bool) (raw : List (Image Pix)) (m : ℤ)
    (hm : m ∈ eeSequence 1 12) :
    eeFilterEq (NDVI_mon_max roi raw) "month" (.num m)
      = [scaleCopy (maxImageOf (MODIS_NDVI roi raw) m)] := by
  rw [NDVI_mon_max_eq]
  unfold eeFilterEq
  refine filter_map_single _ _ _ m (eeSequence_nodup _ _) hm ?_
  intro w hw
  rw [scaleCopy_getProp, maxImageOf_getProp_month]
  simp [decide_eq_decide]

/-! ### Lemmas: pixel values of the generated images -/

theorem date_pred_eq (img : Image Pix) (yy m : ℤ) :
    ((img.date.map fun d => decide (d.year = yy ∧ d.month = m)).getD false)
      = decide (img.date = some (MDate.mk yy m)) := by
  cases hd : img.date with
  | none => simp
  | some d =>
    obtain ⟨dy, dm⟩ := d
    by_cases h1 : dy = yy <;> by_cases h2 : dm = m <;> simp [h1, h2]

theorem monthlyOf_pix (col : List (Image Pix)) (yy m : ℤ) (p : Pix) :
    (monthlyOf col yy m).pix p = specRawMonthlyMean col yy m p := by
  show (eeMean (eeFilterCalendarRange (eeFilterCalendarRange col yy yy "year") m m "month")).pix p
    = specRawMonthlyMean col yy m p
  rw [calRange_year_month]
  rfl

theorem minImageOf_pix (col : List (Image Pix)) (m : ℤ) (p : Pix) :
    (minImageOf col m).pix p
      = listMin ((col.filter fun img =>
          ((img.date.map fun d => decide (d.month = m)).getD false)).filterMap
            fun img => img.pix p) := by
  show (eeMinCol (eeFilterCalendarRange col m m "month")).pix p = _
  rw [calRange_month]
  rfl

theorem maxImageOf_pix (col : List (Image Pix)) (m : ℤ) (p : Pix) :
    (maxImageOf col m).pix p
      = listMax ((col.filter fun img =>
          ((img.date.map fun d => decide (d.month = m)).getD false)).filterMap
            fun img => img.pix p) := by
  show (eeMaxCol (eeFilterCalendarRange col m m "month")).pix p = _
  rw [calRange_month]
  rfl

theorem scaled_monthly_pix (col : List (Image Pix)) (yy m : ℤ) (p : Pix) :
    (scaleCopy (monthlyOf col yy m)).pix p = specMonthlyMean col yy m p := by
  rw [scaleCopy_pix, monthlyOf_pix]
  unfold specMonthlyMean ndviSamples specRawMonthlyMean
  rw [listMean_map_scale]
  have hf : (col.filter fun img =>
        ((img.date.map fun d => decide (d.year = yy ∧ d.month = m)).getD false))
      = col.filter fun img => decide (img.date = some (MDate.mk yy m)) :=
    List.filter_congr fun img _ => date_pred_eq img yy m
  rw [hf]

theorem scaled_min_pix (col : List (Image Pix)) (m : ℤ) (p : Pix) :
    (scaleCopy (minImageOf col m)).pix p = specMonthMin col m p := by
  rw [scaleCopy_pix, minImageOf_pix]
  unfold specMonthMin ndviSamples
  rw [listMin_map_scale]

theorem scaled_max_pix (col : List (Image Pix)) (m : ℤ) (p : Pix) :
    (scaleCopy (maxImageOf col m)).pix p = specMonthMax col m p := by
  rw [scaleCopy_pix, maxImageOf_pix]
  unfold specMonthMax ndviSamples
  rw [listMax_map_scale]

theorem selx_pix (g : Globals) (roi : Pix → Bool) (raw : List (Image Pix)) (yy m : ℤ)
    (hy : yy ∈ eeSequence g.start_year g.end_year) (hm : m ∈ eeSequence 1 12) (p : Pix) :
    (eeSelectImg "NDVI" (eeMean (eeFilterEq
        (eeFilterEq (NDVI_Monthly g roi raw) "year" (.num yy)) "month" (.num m)))).pix p
      = specMonthlyMean (MODIS_NDVI roi raw) yy m p := by
  rw [filterEq_NDVI_Monthly g roi raw yy m hy hm, eeSelectImg_pix]
  have hband : (eeMean [scaleCopy (monthlyOf (MODIS_NDVI roi raw) yy m)]).band
      = (eeMean (eeFilterCalendarRange
          (eeFilterCalendarRange (MODIS_NDVI roi raw) yy yy "year") m m "month")).band := rfl
  cases hF : eeFilterCalendarRange
      (eeFilterCalendarRange (MODIS_NDVI roi raw) yy yy "year") m m "month" with
  | nil =>
    have hne : ¬ (eeMean ([] : List (Image Pix))).band = "NDVI" := by
      show ¬ ("" : String) = "NDVI"
      decide
    rw [hband, hF, if_neg hne]
    unfold specMonthlyMean ndviSamples
    have hf2 : (MODIS_NDVI roi raw).filter (fun img =>
        ((img.date.map fun d => decide (d.year = yy ∧ d.month = m)).getD false)) = [] := by
      rw [List.filter_congr fun img _ => date_pred_eq img yy m, ← calRange_year_month, hF]
    rw [hf2]
    rfl
  | cons a t =>
    have hmem : a ∈ MODIS_NDVI roi raw := by
      have h2 : a ∈ eeFilterCalendarRange
          (eeFilterCalendarRange (MODIS_NDVI roi raw) yy yy "year") m m "month" := by
        rw [hF]
        exact List.mem_cons_self a t
      exact List.mem_of_mem_filter (List.mem_of_mem_filter h2)
    have ha : a.band = "NDVI" := MODIS_NDVI_band roi raw a hmem
    have hb2 : (eeMean [scaleCopy (monthlyOf (MODIS_NDVI roi raw) yy m)]).band = "NDVI" := by
      rw [hband, hF]
      exact ha
    rw [if_pos hb2, eeMean_singleton_pix]
    exact scaled_monthly_pix _ _ _ _

theorem selmin_pix (roi : Pix → Bool) (raw : List (Image Pix)) (m : ℤ)
    (hm : m ∈ eeSequence 1 12) (p : Pix) :
    (eeSelectImg "NDVI" (eeMean (eeFilterEq (NDVI_mon_min roi raw) "month" (.num m)))).pix p
      = specMonthMin (MODIS_NDVI roi raw) m p := by
  rw [filterEq_mon_min roi raw m hm, eeSelectImg_pix]
  have hband : (eeMean [scaleCopy (minImageOf (MODIS_NDVI roi raw) m)]).band
      = (eeMinCol (eeFilterCalendarRange (MODIS_NDVI roi raw) m m "month")).band := rfl
  cases hF : eeFilterCalendarRange (MODIS_NDVI roi raw) m m "month" with
  | nil =>
    have hne : ¬ (eeMinCol ([] : List (Image Pix))).band = "NDVI" := by
      show ¬ ("" : String) = "NDVI"
      decide
    rw [hband, hF, if_neg hne]
    unfold specMonthMin ndviSamples
    have hf2 : (MODIS_NDVI roi raw).filter (fun img =>
        ((img.date.map fun d => decide (d.month = m)).getD false)) = [] := by
      rw [← calRange_month, hF]
    rw [hf2]
    rfl
  | cons a t =>
    have hmem : a ∈ MODIS_NDVI roi raw := by
      have h2 : a ∈ eeFilterCalendarRange (MODIS_NDVI roi raw) m m "month" := by
        rw [hF]
        exact List.mem_cons_self a t
      exact List.mem_of_mem_filter h2
    have hb2 : (eeMean [scaleCopy (minImageOf (MODIS_NDVI roi raw) m)]).band = "NDVI" := by
      rw [hband, hF]
      exact MODIS_NDVI_band roi raw a hmem
    rw [if_pos hb2, eeMean_singleton_pix]
    exact scaled_min_pix _ _ _

theorem selmax_pix (roi : Pix → Bool) (raw : List (Image Pix)) (m : ℤ)
    (hm : m ∈ eeSequence 1 12) (p : Pix) :
    (eeSelectImg "NDVI" (eeMean (eeFilterEq (NDVI_mon_max roi raw) "month" (.num m)))).pix p
      = specMonthMax (MODIS_NDVI roi raw) m p := by
  rw [filterEq_mon_max roi raw m hm, eeSelectImg_pix]
  have hband : (eeMean [scaleCopy (maxImageOf (MODIS_NDVI roi raw) m)]).band
      = (eeMaxCol (eeFilterCalendarRange (MODIS_NDVI roi raw) m m "month")).band := rfl
  cases hF : eeFilterCalendarRange (MODIS_NDVI roi raw) m m "month" with
  | nil =>
    have hne : ¬ (eeMaxCol ([] : List (Image Pix))).band = "NDVI" := by
      show ¬ ("" : String) = "NDVI"
      decide
    rw [hband, hF, if_neg hne]
    unfold specMonthMax ndviSamples
    have hf2 : (MODIS_NDVI roi raw).filter (fun img =>
        ((img.date.map fun d => decide (d.month = m)).getD false)) = [] := by
      rw [← calRange_month, hF]
    rw [hf2]
    rfl
  | cons a t =>
    have hmem : a ∈ MODIS_NDVI roi raw := by
      have h2 : a ∈ eeFilterCalendarRange (MODIS_NDVI roi raw) m m "month" := by
        rw [hF]
        exact List.mem_cons_self a t
      exact List.mem_of_mem_filter h2
    have hb2 : (eeMean [scaleCopy (maxImageOf (MODIS_NDVI roi raw) m)]).band = "NDVI" := by
      rw [hband, hF]
      exact MODIS_NDVI_band roi raw a hmem
    rw [if_pos hb2, eeMean_singleton_pix]
    exact scaled_max_pix _ _ _

theorem vciImageOf_pix (g : Globals) (roi : Pix → Bool) (raw : List (Image Pix)) (yy m : ℤ)
    (hy : yy ∈ eeSequence g.start_year g.end_year) (hm : m ∈ eeSequence 1 12) (p : Pix) :
    (vciImageOf (NDVI_Monthly g roi raw) (NDVI_mon_max roi raw) (NDVI_mon_min roi raw) yy m).pix p
      = vciFormula (specMonthlyMean (MODIS_NDVI roi raw) yy m p)
          (specMonthMin (MODIS_NDVI roi raw) m p) (specMonthMax (MODIS_NDVI roi raw) m p) := by
  have hx := selx_pix g roi raw yy m hy hm p
  have hmn := selmin_pix roi raw m hm p
  have hmx := selmax_pix roi raw m hm p
  show (eeMulConst (eeDivImg
      (eeSub
        (eeSelectImg "NDVI" (eeMean (eeFilterEq
          (eeFilterEq (NDVI_Monthly g roi raw) "year" (.num yy)) "month" (.num m))))
        (eeSelectImg "NDVI" (eeMean (eeFilterEq (NDVI_mon_min roi raw) "month" (.num m)))))
      (eeSub
        (eeSelectImg "NDVI" (eeMean (eeFilterEq (NDVI_mon_max roi raw) "month" (.num m))))
        (eeSelectImg "NDVI" (eeMean (eeFilterEq (NDVI_mon_min roi raw) "month" (.num m))))))
      100).pix p = _
  simp only [eeMulConst, eeDivImg, eeSub]
  rw [hx, hmn, hmx]
  cases specMonthlyMean (MODIS_NDVI roi raw) yy m p <;>
    cases specMonthMin (MODIS_NDVI roi raw) m p <;>
      cases specMonthMax (MODIS_NDVI roi raw) m p <;>
        simp [vciFormula]

theorem mem_vciCol {g : Globals} {roi : Pix → Bool} {raw : List (Image Pix)}
    {img : Image Pix} (h : img ∈ vciCol g roi raw) :
    ∃ yy ∈ eeSequence g.start_year g.end_year, ∃ m ∈ eeSequence 1 12,
      img = eeRenameImg (vciImageOf (NDVI_Monthly g roi raw) (NDVI_mon_max roi raw)
        (NDVI_mon_min roi raw) yy m) "NDVI" "VCI" := by
  unfold vciCol vci_calc at h
  simp only [List.mem_map, List.mem_flatten] at h
  obtain ⟨im2, ⟨l, ⟨yy, hy, rfl⟩, him⟩, rfl⟩ := h
  obtain ⟨m, hm, rfl⟩ := List.mem_map.mp him
  exact ⟨yy, hy, m, hm, rfl⟩

theorem eeSequence_getElem (a b : ℤ) (i : ℕ) (h : i < (eeSequence a b).length) :
    (eeSequence a b)[i] = a + i := by
  unfold eeSequence at h ⊢
  rw [List.getElem_map]
  simp

theorem flatten_map_months_getD {α : Type} (ys : List ℤ) (f : ℤ → ℤ → α) (i j : ℕ) (d : α)
    (hi : i < ys.length) (hj : j < 12) :
    ((ys.map fun yy => (eeSequence 1 12).map (f yy)).flatten).getD (12 * i + j) d
      = f (ys.getD i 0) (1 + (j : ℤ)) := by
  rw [flatten_map_getD ys _ 12 i j d 0
    (fun y2 _ => by simp only [List.length_map, eeSequence_length]; omega) hi hj]
  rw [List.getD_eq_getElem _ _ (by simp only [List.length_map, eeSequence_length]; omega)]
  rw [List.getElem_map]
  congr 1
  exact eeSequence_getElem 1 12 j (by simp only [eeSequence_length]; omega)

theorem eeRenameImg_getProp (img : Image Pix) (old nw k : String) :
    getProp (eeRenameImg img old nw) k = getProp img k := by
  unfold getProp
  rw [eeRenameImg_props]

theorem vciCol_eq (g : Globals) (roi : Pix → Bool) (raw : List (Image Pix)) :
    vciCol g roi raw
      = ((eeSequence g.start_year g.end_year).map fun yy =>
          (eeSequence 1 12).map fun m =>
            eeRenameImg (vciImageOf (NDVI_Monthly g roi raw) (NDVI_mon_max roi raw)
              (NDVI_mon_min roi raw) yy m) "NDVI" "VCI").flatten := by
  unfold vciCol vci_calc
  rw [List.map_flatten, List.map_map]
  congr 1

theorem ndviSamples_subset_month (col : List (Image Pix)) (yy m : ℤ) (p : Pix) (x : ℚ)
    (hx : x ∈ ndviSamples col (fun d => decide (d.year = yy ∧ d.month = m)) p) :
    x ∈ ndviSamples col (fun d => decide (d.month = m)) p := by
  unfold ndviSamples at hx ⊢
  obtain ⟨v, hv, rfl⟩ := List.mem_map.mp hx
  refine List.mem_map.mpr ⟨v, ?_, rfl⟩
  obtain ⟨img, himg, hpix⟩ := List.mem_filterMap.mp hv
  refine List.mem_filterMap.mpr ⟨img, ?_, hpix⟩
  obtain ⟨hcol, hpred⟩ := List.mem_filter.mp himg
  refine List.mem_filter.mpr ⟨hcol, ?_⟩
  cases hd : img.date with
  | none =>
    rw [hd] at hpred
    simp at hpred
  | some d =>
    rw [hd] at hpred
    simp only [Option.map_some', Option.getD_some, decide_eq_true_eq] at hpred ⊢
    exact hpred.2

theorem ndviSamples_ne_nil_of_mem {col : List (Image Pix)} {keep : MDate → Bool} {p : Pix}
    {x : ℚ} (hx : x ∈ ndviSamples col keep p) : ndviSamples col keep p ≠ [] :=
  List.ne_nil_of_mem hx

/-! ### Lemmas: band-name structure -/

theorem monthPad_len : ∀ m ∈ pyRange 1 13, (pyRjust (pyStrInt m) 2 '0').data.length = 2 := by
  decide

theorem monthPad_inj : ∀ m1 ∈ pyRange 1 13, ∀ m2 ∈ pyRange 1 13,
    pyRjust (pyStrInt m1) 2 '0' = pyRjust (pyStrInt m2) 2 '0' → m1 = m2 := by
  decide

theorem bandName_inj (m1 m2 y1 y2 : ℤ) (h1 : m1 ∈ pyRange 1 13) (h2 : m2 ∈ pyRange 1 13)
    (h : bandName m1 y1 = bandName m2 y2) : m1 = m2 ∧ y1 = y2 := by
  have hd := congrArg String.data h
  unfold bandName at hd
  simp only [String.data_append, List.append_assoc] at hd
  have hlen : (pyRjust (pyStrInt m1) 2 '0').data.length
      = (pyRjust (pyStrInt m2) 2 '0').data.length := by
    rw [monthPad_len m1 h1, monthPad_len m2 h2]
  obtain ⟨hpad, hrest⟩ := List.append_inj hd hlen
  refine ⟨monthPad_inj m1 h1 m2 h2 (string_ext hpad), ?_⟩
  have hrest2 : ('-' :: ((pyStrInt y1).data ++ "_VCI".data))
      = ('-' :: ((pyStrInt y2).data ++ "_VCI".data)) := hrest
  have hrest3 : (pyStrInt y1).data ++ "_VCI".data = (pyStrInt y2).data ++ "_VCI".data := by
    injection hrest2
  exact pyStrInt_inj (string_ext (List.append_cancel_right hrest3))

theorem create_band_names_nodup (g : Globals) : (create_band_names g).Nodup := by
  unfold create_band_names
  rw [List.nodup_flatten]
  constructor
  · intro s hs
    obtain ⟨yy, hyy, rfl⟩ := List.mem_map.mp hs
    refine List.Nodup.map_on ?_ (pyRange_nodup 1 13)
    intro x hx y2 hy2 hxy
    exact (bandName_inj x y2 yy yy hx hy2 hxy).1
  · rw [List.pairwise_map]
    refine (pyRange_nodup g.start_year (g.end_year + 1)).imp ?_
    intro a b hab x hx1 hx2
    obtain ⟨mm1, hmm1, rfl⟩ := List.mem_map.mp hx1
    obtain ⟨mm2, hmm2, heq⟩ := List.mem_map.mp hx2
    exact hab ((bandName_inj mm2 mm1 b a hmm2 hmm1 heq).2).symm

/-! ### Lemmas: the checked label helpers never raise -/

theorem bandNameStep_ok (year : ℤ) (names : List String) (month : ℤ) :
    bandNameStep year names month = .ok (names ++ [bandName month year]) := rfl

theorem bandNames_inner_fold (year : ℤ) (ms : List ℤ) : ∀ acc : List String,
    ms.foldlM (bandNameStep year) acc
      = .ok (acc ++ ms.map fun month => bandName month year) := by
  induction ms with
  | nil =>
    intro acc
    rw [List.foldlM_nil]
    simp only [List.map_nil, List.flatten_nil, List.append_nil]
    rfl
  | cons m t ih =>
    intro acc
    rw [List.foldlM_cons, bandNameStep_ok]
    show t.foldlM (bandNameStep year) (acc ++ [bandName m year]) = _
    rw [ih]
    simp

theorem bandNames_outer_fold (ys : List ℤ) : ∀ acc : List String,
    ys.foldlM (fun names year => (pyRange 1 13).foldlM (bandNameStep year) names) acc
      = .ok (acc ++ (ys.map fun year => (pyRange 1 13).map fun month => bandName month year).flatten) := by
  induction ys with
  | nil =>
    intro acc
    rw [List.foldlM_nil]
    simp only [List.map_nil, List.flatten_nil, List.append_nil]
    rfl
  | cons yy t ih =>
    intro acc
    rw [List.foldlM_cons, bandNames_inner_fold yy (pyRange 1 13) acc]
    show t.foldlM (fun names year => (pyRange 1 13).foldlM (bandNameStep year) names)
      (acc ++ (pyRange 1 13).map fun month => bandName month yy) = _
    rw [ih]
    simp

theorem textStep_ok (yv : ℤ) (acc : List String) (n : ℤ) :
    textStep yv acc n = .ok (acc ++ [pyZfill (pyStrInt n) 2 ++ "-" ++ pyStrInt yv]) := rfl

theorem text_fold (yv : ℤ) (ms : List ℤ) : ∀ acc : List String,
    ms.foldlM (textStep yv) acc
      = .ok (acc ++ ms.map fun n => pyZfill (pyStrInt n) 2 ++ "-" ++ pyStrInt yv) := by
  induction ms with
  | nil =>
    intro acc
    rw [List.foldlM_nil]
    simp only [List.map_nil, List.flatten_nil, List.append_nil]
    rfl
  | cons m t ih =>
    intro acc
    rw [List.foldlM_cons, textStep_ok]
    show t.foldlM (textStep yv) (acc ++ [pyZfill (pyStrInt m) 2 ++ "-" ++ pyStrInt yv]) = _
    rw [ih]
    simp

/-! ### Lemmas: positional access to the mapped sequences -/

theorem map_getD_eeSequence {α : Type} (a b : ℤ) (f : ℤ → α) (i : ℕ) (d : α)
    (hi : i < (eeSequence a b).length) :
    ((eeSequence a b).map f).getD i d = f (a + i) := by
  rw [List.getD_eq_getElem _ _ (by simpa using hi), List.getElem_map]
  congr 1
  exact eeSequence_getElem a b i hi

theorem vciCol_getD_zero (g : Globals) (roi : Pix → Bool) (raw : List (Image Pix))
    (h : 0 < (eeSequence g.start_year g.end_year).length) :
    (vciCol g roi raw).getD 0 default
      = eeRenameImg (vciImageOf (NDVI_Monthly g roi raw) (NDVI_mon_max roi raw)
          (NDVI_mon_min roi raw) g.start_year 1) "NDVI" "VCI" := by
  rw [vciCol_eq]
  have h0 := flatten_map_months_getD (eeSequence g.start_year g.end_year)
    (fun yy m => eeRenameImg (vciImageOf (NDVI_Monthly g roi raw) (NDVI_mon_max roi raw)
        (NDVI_mon_min roi raw) yy m) "NDVI" "VCI") 0 0 default h (by omega)
  rw [eeSequence_getD _ _ 0 h] at h0
  simpa using h0

theorem NDVI_Monthly_getD_zero (g : Globals) (roi : Pix → Bool) (raw : List (Image Pix))
    (h : 0 < (eeSequence g.start_year g.end_year).length) :
    (NDVI_Monthly g roi raw).getD 0 default
      = scaleCopy (monthlyOf (MODIS_NDVI roi raw) g.start_year 1) := by
  rw [NDVI_Monthly_eq]
  have h0 := flatten_map_months_getD (eeSequence g.start_year g.end_year)
    (fun yy m => scaleCopy (monthlyOf (MODIS_NDVI roi raw) yy m)) 0 0 default h (by omega)
  rw [eeSequence_getD _ _ 0 h] at h0
  simpa using h0

/-! ## The claims -/

/-- C7: each scale-factor map `lambda image: image.multiply(0.0001)
.copyProperties(image, image.propertyNames())` changes only the pixel
values of an image — multiplying them by the 0.0001 scale factor — and
leaves every metadata property unchanged (in particular the `month`,
`year` and `ID` properties that `vci_calc`'s `ee.Filter.eq` filters rely
on), as well as the band name and the acquisition date. -/
theorem c7_scale_map_frame_effect {Pix : Type} (img : Image Pix) :
    (∀ k : String, getProp (scaleCopy img) k = getProp img k)
    ∧ (scaleCopy img).band = img.band
    ∧ (scaleCopy img).date = img.date
    ∧ ∀ p : Pix, (scaleCopy img).pix p = (img.pix p).map fun v => v * scaleFactor :=
  ⟨fun k => scaleCopy_getProp img k, scaleCopy_band img, scaleCopy_date img,
    fun p => scaleCopy_pix img p⟩

/-- C4: the two local helper routines — `create_band_names` and the
year-stamped text-label comprehension — are pure and deterministic: two
runs whose global contexts agree on `start_year` and `end_year`
(respectively on the animated year `y`) return identical lists, whatever
the rest of the program state is.  (Both are embedded as plain functions
of the global context, so neither mutates any state.) -/
theorem c4_helpers_deterministic :
    (∀ g1 g2 : Globals, g1.start_year = g2.start_year → g1.end_year = g2.end_year →
      create_band_names g1 = create_band_names g2)
    ∧ ∀ g1 g2 : Globals, g1.y = g2.y → text_labels g1 = text_labels g2 := by
  constructor
  · intro g1 g2 h1 h2
    unfold create_band_names
    rw [h1, h2]
  · intro g1 g2 h
    unfold text_labels
    rw [h]

/-- Witness for C4: two whole-program contexts that differ in the animated
year and the frame rate but agree on the year range produce the same band
names, and two contexts that differ in the year range but agree on the
animated year produce the same text labels. -/
theorem c4_witness :
    gW1.y ≠ gW2.y ∧ gW1.fps ≠ gW2.fps
    ∧ gW1.start_year = gW2.start_year ∧ gW1.end_year = gW2.end_year
    ∧ create_band_names gW1 = create_band_names gW2
    ∧ gW3.start_year ≠ gW1.start_year ∧ gW1.y = gW3.y
    ∧ text_labels gW1 = text_labels gW3 :=
  ⟨by decide, by decide, rfl, rfl, c4_helpers_deterministic.1 gW1 gW2 rfl rfl,
    by decide, rfl, c4_helpers_deterministic.2 gW1 gW3 rfl⟩

/-- C5: the label helpers have no error paths beyond malformed range
inputs: for every context with `start_year ≤ end_year`, the checked run of
`create_band_names` (with the Python `TypeError` path of `rjust` made
explicit) returns normally with exactly the list of strings the pure
helper produces, and for every integer `y` the checked run of the
text-label comprehension returns normally with its list of strings. -/
theorem c5_label_helpers_total (g : Globals) :
    (g.start_year ≤ g.end_year → create_band_names_checked g = .ok (create_band_names g))
    ∧ text_labels_checked g = .ok (text_labels g) := by
  constructor
  · intro _
    unfold create_band_names_checked
    rw [bandNames_outer_fold]
    unfold create_band_names
    simp
  · unfold text_labels_checked
    rw [text_fold]
    unfold text_labels
    simp

/-- Witness for C5: at the notebook's own configuration the checked
helpers return `ok` with the pure results. -/
theorem c5_witness :
    notebook_globals.start_year ≤ notebook_globals.end_year
    ∧ create_band_names_checked notebook_globals = .ok (create_band_names notebook_globals)
    ∧ text_labels_checked notebook_globals = .ok (text_labels notebook_globals) :=
  ⟨by decide, (c5_label_helpers_total notebook_globals).1 (by decide),
    (c5_label_helpers_total notebook_globals).2⟩

/-- C9: the animation text labels agree with the band-name labels: for the
notebook's animated year `y = 2022`, the text list has exactly 12 entries
and each entry equals the first seven characters (`mm-yyyy`) of the band
name `create_band_names` produces for the same month of year `y` — the
names at offset `12 * (y - start_year)` of the band-name list. -/
theorem c9_text_matches_band_names :
    (text_labels notebook_globals).length = 12
    ∧ text_labels notebook_globals
      = ((create_band_names notebook_globals).drop
          (12 * (notebook_globals.y - notebook_globals.start_year)).toNat).map
            fun s => String.mk (s.data.take 7) := by
  constructor
  · decide
  · decide

/-- C2 (amended): the pipeline's stages run in the order load → reshape to
monthly cadence → compute per-calendar-month extrema → compute normalized
index → rename/flatten → visualize/animate, but the per-calendar-month
extrema are computed from the loaded, clipped raw collection
(`min_monthly(MODIS_NDVI)` / `max_monthly(MODIS_NDVI)`), not from the
monthly-reshaped data: the extrema image for calendar month `m` holds,
pixelwise, the min/max of the raw NDVI samples of month `m`. -/
theorem c2_extrema_from_raw_data {Pix : Type} (roi : Pix → Bool) (raw : List (Image Pix))
    (m : ℤ) (hm : m ∈ eeSequence 1 12) (p : Pix) :
    ((NDVI_mon_min roi raw).getD (m - 1).toNat default).pix p
        = specMonthMin (MODIS_NDVI roi raw) m p
    ∧ ((NDVI_mon_max roi raw).getD (m - 1).toNat default).pix p
        = specMonthMax (MODIS_NDVI roi raw) m p
    ∧ getProp ((NDVI_mon_min roi raw).getD (m - 1).toNat default) "month"
        = some (.num m) := by
  obtain ⟨hm1, hm12⟩ := mem_eeSequence.mp hm
  have hidx : (m - 1).toNat < (eeSequence 1 12).length := by
    rw [eeSequence_length]
    omega
  have harg : (1 : ℤ) + (((m - 1).toNat : ℕ) : ℤ) = m := by omega
  have hmin : (NDVI_mon_min roi raw).getD (m - 1).toNat default
      = scaleCopy (minImageOf (MODIS_NDVI roi raw) m) := by
    rw [NDVI_mon_min_eq, map_getD_eeSequence 1 12 _ ((m - 1).toNat) default hidx, harg]
  have hmax : (NDVI_mon_max roi raw).getD (m - 1).toNat default
      = scaleCopy (maxImageOf (MODIS_NDVI roi raw) m) := by
    rw [NDVI_mon_max_eq, map_getD_eeSequence 1 12 _ ((m - 1).toNat) default hidx, harg]
  refine ⟨?_, ?_, ?_⟩
  · rw [hmin]
    exact scaled_min_pix _ _ _
  · rw [hmax]
    exact scaled_max_pix _ _ _
  · rw [hmin, scaleCopy_getProp]
    exact minImageOf_getProp_month _ _

/-- Counterexample for C2 as stated: on a collection with two January
acquisitions of 2001 with raw values 0 and 10000, the pipeline's January
minimum is 0 (the minimum of the raw samples), while any extremum computed
from the data after the monthly reshaping would be built from the single
January monthly mean 1/2 — and literally re-running `min_monthly` on
`NDVI_Monthly` yields a fully masked image, because the monthly images
carry no acquisition date for `calendarRange` to filter on. -/
theorem c2_counterexample :
    ((NDVI_mon_min roiAll rawB).getD 0 default).pix () = some 0
    ∧ ((min_monthly (NDVI_Monthly gB roiAll rawB)).getD 0 default).pix () = none
    ∧ ((NDVI_Monthly gB roiAll rawB).getD 0 default).pix () = some (1 / 2)
    ∧ some (0 : ℚ) ≠ (none : Option ℚ) ∧ some (0 : ℚ) ≠ some (1 / 2 : ℚ) := by
  refine ⟨?_, ?_, ?_, by simp, by norm_num⟩
  · have he : (NDVI_mon_min roiAll rawB).getD 0 default
        = scaleCopy (minImageOf (MODIS_NDVI roiAll rawB) 1) := by
      rw [NDVI_mon_min_eq]
      have h0 := map_getD_eeSequence 1 12
        (fun m => scaleCopy (minImageOf (MODIS_NDVI roiAll rawB) m)) 0 default (by decide)
      simpa using h0
    rw [he, scaled_min_pix]
    norm_num [specMonthMin, ndviSamples, MODIS_NDVI, rawB, mkRaw, roiAll, eeClip, eeSelectImg,
      scaleFactor, listMin, List.filter, List.filterMap]
  · decide
  · have he := NDVI_Monthly_getD_zero gB roiAll rawB (by decide)
    rw [he, scaled_monthly_pix]
    norm_num [specMonthlyMean, ndviSamples, MODIS_NDVI, rawB, mkRaw, roiAll, eeClip, eeSelectImg,
      scaleFactor, listMean, List.filter, List.filterMap, gB]

/-- Witness for C2's amended theorem at month 1 of the concrete two-image
collection: the pipeline's first extrema image holds the raw-sample
minimum 0 and carries the `month` property. -/
theorem c2_witness :
    (1 : ℤ) ∈ eeSequence 1 12
    ∧ ((NDVI_mon_min roiAll rawB).getD ((1 : ℤ) - 1).toNat default).pix ()
        = specMonthMin (MODIS_NDVI roiAll rawB) 1 ()
    ∧ ((NDVI_mon_max roiAll rawB).getD ((1 : ℤ) - 1).toNat default).pix ()
        = specMonthMax (MODIS_NDVI roiAll rawB) 1 ()
    ∧ getProp ((NDVI_mon_min roiAll rawB).getD ((1 : ℤ) - 1).toNat default) "month"
        = some (.num 1)
    ∧ specMonthMin (MODIS_NDVI roiAll rawB) 1 () = some 0 := by
  have h := c2_extrema_from_raw_data roiAll rawB 1 (by decide) ()
  refine ⟨by decide, h.1, h.2.1, h.2.2, ?_⟩
  norm_num [specMonthMin, ndviSamples, MODIS_NDVI, rawB, mkRaw, roiAll, eeClip, eeSelectImg,
    scaleFactor, listMin, List.filter, List.filterMap]

/-- C1 (amended): for every image of the VCI collection carrying the
properties `year = y` and `month = m`, and every pixel where the monthly
mean is defined and the historical extrema differ, the VCI value equals
`((x − min_m) / (max_m − min_m)) × 100`, where `x` is the monthly-mean
NDVI for month `m` of year `y` and `min_m`, `max_m` are the minimum and
maximum NDVI for calendar month `m` over all years present in the input
collection (not merely the years of the configured range). -/
theorem c1_vci_formula {Pix : Type} (g : Globals) (roi : Pix → Bool) (raw : List (Image Pix))
    (img : Image Pix) (yy m : ℤ) (p : Pix) (x mn mx : ℚ)
    (himg : img ∈ vciCol g roi raw)
    (hyear : getProp img "year" = some (.num yy))
    (hmonth : getProp img "month" = some (.num m))
    (hx : specMonthlyMean (MODIS_NDVI roi raw) yy m p = some x)
    (hmn : specMonthMin (MODIS_NDVI roi raw) m p = some mn)
    (hmx : specMonthMax (MODIS_NDVI roi raw) m p = some mx)
    (hne : mn ≠ mx) :
    img.pix p = some ((x - mn) / (mx - mn) * 100) := by
  obtain ⟨y2, hy2, m2, hm2, rfl⟩ := mem_vciCol himg
  rw [eeRenameImg_getProp, vciImageOf_getProp_year] at hyear
  rw [eeRenameImg_getProp, vciImageOf_getProp_month] at hmonth
  simp only [Option.some.injEq, PVal.num.injEq] at hyear hmonth
  subst hyear
  subst hmonth
  rw [congrFun (eeRenameImg_pix_of_band _ _ _ (vciImageOf_band _ _ _ _ _)) p]
  rw [vciImageOf_pix g roi raw y2 m2 hy2 hm2 p, hx, hmn, hmx]
  show some (eeDivVal (x - mn) (mx - mn) * 100) = _
  unfold eeDivVal
  rw [if_neg (sub_ne_zero.mpr fun h => hne h.symm)]

/-- Counterexample for C1 as stated: with `start_year = 2001`,
`end_year = 2002` and a collection holding January images of 2000, 2001
and 2002 (raw 0, 5000, 10000), the (2001, January) VCI image has pixel
value 50 — the out-of-range year 2000 supplies the minimum — whereas the
claim's formula with the extrema restricted to the configured year range
gives `((1/2 − 1/2) / (1 − 1/2)) × 100 = 0 ≠ 50`. -/
theorem c1_counterexample :
    getProp ((vciCol gA roiAll rawA).getD 0 default) "year" = some (.num 2001)
    ∧ getProp ((vciCol gA roiAll rawA).getD 0 default) "month" = some (.num 1)
    ∧ ((vciCol gA roiAll rawA).getD 0 default).pix () = some 50
    ∧ specMonthlyMean (MODIS_NDVI roiAll rawA) 2001 1 () = some (1 / 2)
    ∧ specMonthMinInRange gA.start_year gA.end_year (MODIS_NDVI roiAll rawA) 1 () = some (1 / 2)
    ∧ specMonthMaxInRange gA.start_year gA.end_year (MODIS_NDVI roiAll rawA) 1 () = some 1
    ∧ ((1 / 2 - 1 / 2) / (1 - 1 / 2) * 100 : ℚ) = 0
    ∧ (50 : ℚ) ≠ 0 := by
  have he := vciCol_getD_zero gA roiAll rawA (by decide)
  refine ⟨by decide, by decide, ?_, ?_, ?_, ?_, by norm_num, by norm_num⟩
  · rw [he, congrFun (eeRenameImg_pix_of_band _ _ _ (vciImageOf_band _ _ _ _ _)) ()]
    rw [show (gA.start_year : ℤ) = 2001 from rfl]
    rw [vciImageOf_pix gA roiAll rawA 2001 1 (by decide) (by decide) ()]
    have h1 : specMonthlyMean (MODIS_NDVI roiAll rawA) 2001 1 () = some (1 / 2) := by
      norm_num [specMonthlyMean, ndviSamples, MODIS_NDVI, rawA, mkRaw, roiAll, eeClip,
        eeSelectImg, scaleFactor, listMean, List.filter, List.filterMap]
    have h2 : specMonthMin (MODIS_NDVI roiAll rawA) 1 () = some 0 := by
      norm_num [specMonthMin, ndviSamples, MODIS_NDVI, rawA, mkRaw, roiAll, eeClip,
        eeSelectImg, scaleFactor, listMin, List.filter, List.filterMap]
    have h3 : specMonthMax (MODIS_NDVI roiAll rawA) 1 () = some 1 := by
      norm_num [specMonthMax, ndviSamples, MODIS_NDVI, rawA, mkRaw, roiAll, eeClip,
        eeSelectImg, scaleFactor, listMax, List.filter, List.filterMap]
    rw [h1, h2, h3]
    unfold vciFormula eeDivVal
    norm_num
  · norm_num [specMonthlyMean, ndviSamples, MODIS_NDVI, rawA, mkRaw, roiAll, eeClip,
      eeSelectImg, scaleFactor, listMean, List.filter, List.filterMap]
  · norm_num [specMonthMinInRange, ndviSamples, MODIS_NDVI, rawA, mkRaw, roiAll, eeClip,
      eeSelectImg, scaleFactor, listMin, List.filter, List.filterMap, gA]
  · norm_num [specMonthMaxInRange, ndviSamples, MODIS_NDVI, rawA, mkRaw, roiAll, eeClip,
      eeSelectImg, scaleFactor, listMax, List.filter, List.filterMap, gA]

/-- Witness for C1's amended theorem: on the two-image January collection
the (2001, January) VCI image exists, its properties identify it, the
spec-side mean and extrema are 1/2, 0 and 1, and its pixel value is
`((1/2 − 0) / (1 − 0)) × 100`. -/
theorem c1_witness :
    wImg ∈ vciCol gB roiAll rawB
    ∧ getProp wImg "year" = some (.num 2001)
    ∧ getProp wImg "month" = some (.num 1)
    ∧ specMonthlyMean (MODIS_NDVI roiAll rawB) 2001 1 () = some (1 / 2)
    ∧ specMonthMin (MODIS_NDVI roiAll rawB) 1 () = some 0
    ∧ specMonthMax (MODIS_NDVI roiAll rawB) 1 () = some 1
    ∧ (0 : ℚ) ≠ 1
    ∧ wImg.pix () = some ((1 / 2 - 0) / (1 - 0) * 100) := by
  have hlen : 0 < (vciCol gB roiAll rawB).length := by decide
  have hmem : wImg ∈ vciCol gB roiAll rawB := by
    unfold wImg
    rw [List.getD_eq_getElem _ _ hlen]
    exact (vciCol gB roiAll rawB).getElem_mem hlen
  have hx : specMonthlyMean (MODIS_NDVI roiAll rawB) 2001 1 () = some (1 / 2) := by
    norm_num [specMonthlyMean, ndviSamples, MODIS_NDVI, rawB, mkRaw, roiAll, eeClip,
      eeSelectImg, scaleFactor, listMean, List.filter, List.filterMap]
  have hmn : specMonthMin (MODIS_NDVI roiAll rawB) 1 () = some 0 := by
    norm_num [specMonthMin, ndviSamples, MODIS_NDVI, rawB, mkRaw, roiAll, eeClip,
      eeSelectImg, scaleFactor, listMin, List.filter, List.filterMap]
  have hmx : specMonthMax (MODIS_NDVI roiAll rawB) 1 () = some 1 := by
    norm_num [specMonthMax, ndviSamples, MODIS_NDVI, rawB, mkRaw, roiAll, eeClip,
      eeSelectImg, scaleFactor, listMax, List.filter, List.filterMap]
  exact ⟨hmem, by decide, by decide, hx, hmn, hmx, by norm_num,
    c1_vci_formula gB roiAll rawB wImg 2001 1 () (1 / 2) 0 1 hmem (by decide) (by decide)
      hx hmn hmx (by norm_num)⟩

/-- C3: every VCI value the pipeline computes lies in the 0–100 range of
the animation's visualization parameters: for every image of the VCI
collection (hence every band of the flattened image and every frame of
the animation) and every pixel where the value is defined,
`videoArgs.min ≤ VCI ≤ videoArgs.max` with `min = 0` and `max = 100`. -/
theorem c3_vci_in_range {Pix : Type} (g : Globals) (roi : Pix → Bool) (raw : List (Image Pix))
    (img : Image Pix) (p : Pix) (v : ℚ) (himg : img ∈ vciCol g roi raw)
    (hv : img.pix p = some v) :
    (videoArgs g).min ≤ v ∧ v ≤ (videoArgs g).max := by
  obtain ⟨yy, hy, m, hm, rfl⟩ := mem_vciCol himg
  rw [congrFun (eeRenameImg_pix_of_band _ _ _ (vciImageOf_band _ _ _ _ _)) p,
    vciImageOf_pix g roi raw yy m hy hm p] at hv
  cases hX : specMonthlyMean (MODIS_NDVI roi raw) yy m p with
  | none => rw [hX] at hv; simp [vciFormula] at hv
  | some x =>
  cases hMN : specMonthMin (MODIS_NDVI roi raw) m p with
  | none => rw [hX, hMN] at hv; simp [vciFormula] at hv
  | some mn =>
  cases hMX : specMonthMax (MODIS_NDVI roi raw) m p with
  | none => rw [hX, hMN, hMX] at hv; simp [vciFormula] at hv
  | some mx =>
  rw [hX, hMN, hMX] at hv
  simp only [vciFormula, Option.some.injEq] at hv
  subst hv
  unfold specMonthlyMean at hX
  unfold specMonthMin at hMN
  unfold specMonthMax at hMX
  have hbounds : mn ≤ x ∧ x ≤ mx := by
    have hA : ∀ a ∈ ndviSamples (MODIS_NDVI roi raw)
        (fun d => decide (d.year = yy ∧ d.month = m)) p, mn ≤ a ∧ a ≤ mx := by
      intro a ha
      have hB := ndviSamples_subset_month _ yy m p a ha
      exact ⟨listMin_le_mem hMN hB, mem_le_listMax hMX hB⟩
    exact ⟨le_listMean hX fun a ha => (hA a ha).1, listMean_le hX fun a ha => (hA a ha).2⟩
  have h0 : (videoArgs g).min = 0 := rfl
  have h100 : (videoArgs g).max = 100 := rfl
  rw [h0, h100]
  unfold eeDivVal
  by_cases hz : mx - mn = 0
  · rw [if_pos hz]
    norm_num
  · rw [if_neg hz]
    have hlt : 0 < mx - mn := by
      rcases hbounds with ⟨hb1, hb2⟩
      have hle : mn ≤ mx := le_trans hb1 hb2
      rcases lt_or_eq_of_le hle with h | h
      · linarith
      · exact absurd (by linarith : mx - mn = 0) hz
    constructor
    · exact mul_nonneg (div_nonneg (by linarith [hbounds.1]) hlt.le) (by norm_num)
    · have hq : (x - mn) / (mx - mn) ≤ 1 := by
        rw [div_le_one hlt]
        linarith [hbounds.2]
      calc (x - mn) / (mx - mn) * 100 ≤ 1 * 100 :=
        mul_le_mul_of_nonneg_right hq (by norm_num)
      _ = 100 := by norm_num

/-- Witness for C3: the (2001, January) VCI image of the two-image January
collection has pixel value 50, and the claim's bounds hold for it. -/
theorem c3_witness :
    wImg ∈ vciCol gB roiAll rawB ∧ wImg.pix () = some 50
    ∧ (videoArgs gB).min ≤ (50 : ℚ) ∧ (50 : ℚ) ≤ (videoArgs gB).max := by
  have hlen : 0 < (vciCol gB roiAll rawB).length := by decide
  have hmem : wImg ∈ vciCol gB roiAll rawB := by
    unfold wImg
    rw [List.getD_eq_getElem _ _ hlen]
    exact (vciCol gB roiAll rawB).getElem_mem hlen
  have hpix : wImg.pix () = some 50 := by
    have he : wImg = eeRenameImg (vciImageOf (NDVI_Monthly gB roiAll rawB)
        (NDVI_mon_max roiAll rawB) (NDVI_mon_min roiAll rawB) 2001 1) "NDVI" "VCI" := by
      unfold wImg
      have h0 := vciCol_getD_zero gB roiAll rawB (by decide)
      rw [show (gB.start_year : ℤ) = 2001 from rfl] at h0
      exact h0
    rw [he, congrFun (eeRenameImg_pix_of_band _ _ _ (vciImageOf_band _ _ _ _ _)) (),
      vciImageOf_pix gB roiAll rawB 2001 1 (by decide) (by decide) ()]
    have h1 : specMonthlyMean (MODIS_NDVI roiAll rawB) 2001 1 () = some (1 / 2) := by
      norm_num [specMonthlyMean, ndviSamples, MODIS_NDVI, rawB, mkRaw, roiAll, eeClip,
        eeSelectImg, scaleFactor, listMean, List.filter, List.filterMap]
    have h2 : specMonthMin (MODIS_NDVI roiAll rawB) 1 () = some 0 := by
      norm_num [specMonthMin, ndviSamples, MODIS_NDVI, rawB, mkRaw, roiAll, eeClip,
        eeSelectImg, scaleFactor, listMin, List.filter, List.filterMap]
    have h3 : specMonthMax (MODIS_NDVI roiAll rawB) 1 () = some 1 := by
      norm_num [specMonthMax, ndviSamples, MODIS_NDVI, rawB, mkRaw, roiAll, eeClip,
        eeSelectImg, scaleFactor, listMax, List.filter, List.filterMap]
    rw [h1, h2, h3]
    unfold vciFormula eeDivVal
    norm_num
  exact ⟨hmem, hpix, (c3_vci_in_range gB roiAll rawB wImg () 50 hmem hpix).1,
    (c3_vci_in_range gB roiAll rawB wImg () 50 hmem hpix).2⟩

/-- C6: for `start_year ≤ end_year` and an input collection covering the
complete calendar years of the range, `col2monthly` returns exactly
`12 × (end_year − start_year + 1)` images, ordered year-major with months
1..12 ascending within each year; the image at slot `(y, m)` is the
pixelwise mean of the input images dated in calendar year `y` and month
`m` and carries the properties `month = m` and `year = y`. -/
theorem c6_col2monthly {Pix : Type} (g : Globals) (col : List (Image Pix))
    (hse : g.start_year ≤ g.end_year)
    (hfull : ∀ yy ∈ eeSequence g.start_year g.end_year, ∀ m ∈ eeSequence 1 12,
      ∃ img ∈ col, img.date = some (MDate.mk yy m)) :
    (col2monthly g col).length = (12 * (g.end_year - g.start_year + 1)).toNat
    ∧ ∀ i j : ℕ, i < (g.end_year - g.start_year + 1).toNat → j < 12 →
        getProp ((col2monthly g col).getD (12 * i + j) default) "year"
            = some (.num (g.start_year + (i : ℤ)))
        ∧ getProp ((col2monthly g col).getD (12 * i + j) default) "month"
            = some (.num (1 + (j : ℤ)))
        ∧ ∀ p : Pix, ((col2monthly g col).getD (12 * i + j) default).pix p
            = specRawMonthlyMean col (g.start_year + (i : ℤ)) (1 + (j : ℤ)) p := by
  constructor
  · unfold col2monthly
    rw [flatten_map_length _ _ 12 (fun y2 _ => by rw [List.length_map, eeSequence_length]; rfl),
      eeSequence_length]
    omega
  · intro i j hi hj
    have hgd : (col2monthly g col).getD (12 * i + j) default
        = monthlyOf col (g.start_year + (i : ℤ)) (1 + (j : ℤ)) := by
      unfold col2monthly
      have h0 := flatten_map_months_getD (eeSequence g.start_year g.end_year)
        (fun yy m => monthlyOf col yy m) i j default
        (by rw [eeSequence_length]; omega) hj
      rw [eeSequence_getD _ _ i (by rw [eeSequence_length]; omega)] at h0
      exact h0
    rw [hgd]
    exact ⟨monthlyOf_getProp_year _ _ _, monthlyOf_getProp_month _ _ _,
      fun p => monthlyOf_pix _ _ _ p⟩

/-- Witness for C6: a collection with one acquisition in each month of
2001 satisfies the completeness hypothesis, and `col2monthly` over the
one-year range 2001–2001 has 12 images whose first slot carries the
January-2001 properties and the January mean. -/
theorem c6_witness :
    gB.start_year ≤ gB.end_year
    ∧ (∀ yy ∈ eeSequence gB.start_year gB.end_year, ∀ m ∈ eeSequence 1 12,
        ∃ img ∈ raw12, img.date = some (MDate.mk yy m))
    ∧ (col2monthly gB raw12).length = (12 * (gB.end_year - gB.start_year + 1)).toNat
    ∧ getProp ((col2monthly gB raw12).getD (12 * 0 + 0) default) "year"
        = some (.num (gB.start_year + ((0 : ℕ) : ℤ)))
    ∧ getProp ((col2monthly gB raw12).getD (12 * 0 + 0) default) "month"
        = some (.num (1 + ((0 : ℕ) : ℤ)))
    ∧ ((col2monthly gB raw12).getD (12 * 0 + 0) default).pix ()
        = specRawMonthlyMean raw12 (gB.start_year + ((0 : ℕ) : ℤ)) (1 + ((0 : ℕ) : ℤ)) () := by
  have h := c6_col2monthly gB raw12 (by decide) (by decide)
  have h2 := h.2 0 0 (by decide) (by decide)
  exact ⟨by decide, by decide, h.1, h2.1, h2.2.1, h2.2.2 ()⟩

/-- C8: `create_band_names` returns exactly
`12 × (end_year − start_year + 1)` pairwise-distinct strings of the form
`mm-yyyy_VCI` (month zero-padded via `rjust`), in year-major
month-ascending order — the entry at position `12·i + j` names month
`j + 1` of year `start_year + i` — and their count equals the number of
bands of the flattened image `vci.toBands()`, so the
`select(original_names, new_names)` rename is a one-to-one relabelling. -/
theorem c8_band_names (g : Globals) (hse : g.start_year ≤ g.end_year) :
    (create_band_names g).length = (12 * (g.end_year - g.start_year + 1)).toNat
    ∧ (create_band_names g).Nodup
    ∧ (∀ i j : ℕ, i < (g.end_year - g.start_year + 1).toNat → j < 12 →
        (create_band_names g).getD (12 * i + j) ""
          = bandName (1 + (j : ℤ)) (g.start_year + (i : ℤ)))
    ∧ ∀ (Pix : Type) (roi : Pix → Bool) (raw : List (Image Pix)),
        (toBands (vciCol g roi raw)).length = (create_band_names g).length := by
  refine ⟨?_, create_band_names_nodup g, ?_, ?_⟩
  · unfold create_band_names
    rw [pyRange_eq_eeSequence,
      flatten_map_length _ _ 12 (fun y2 _ => by rw [List.length_map]; decide),
      eeSequence_length]
    omega
  · intro i j hi hj
    have key := flatten_map_months_getD (eeSequence g.start_year g.end_year)
      (fun yy2 m2 => bandName m2 yy2) i j ""
      (by rw [eeSequence_length]; omega) hj
    rw [eeSequence_getD _ _ i (by rw [eeSequence_length]; omega)] at key
    unfold create_band_names
    rw [pyRange_eq_eeSequence]
    simp only [pyRange13_eq]
    exact key
  · intro Pix2 roi raw
    have ht : (toBands (vciCol g roi raw)).length = (vciCol g roi raw).length := by
      simp [toBands]
    rw [ht, vciCol_eq,
      flatten_map_length _ _ 12 (fun y2 _ => by rw [List.length_map, eeSequence_length]; rfl)]
    unfold create_band_names
    rw [pyRange_eq_eeSequence,
      flatten_map_length _ _ 12 (fun y2 _ => by rw [List.length_map]; decide)]

/-- Witness for C8 at the one-year configuration: 12 distinct names, the
first of which labels January 2001, and the band count of the flattened
VCI image matches. -/
theorem c8_witness :
    gB.start_year ≤ gB.end_year
    ∧ (create_band_names gB).length = (12 * (gB.end_year - gB.start_year + 1)).toNat
    ∧ (create_band_names gB).Nodup
    ∧ (create_band_names gB).getD (12 * 0 + 0) ""
        = bandName (1 + ((0 : ℕ) : ℤ)) (gB.start_year + ((0 : ℕ) : ℤ))
    ∧ (toBands (vciCol gB roiAll rawB)).length = (create_band_names gB).length := by
  have h := c8_band_names gB (by decide)
  exact ⟨by decide, h.1, h.2.1, h.2.2.1 0 0 (by decide) (by decide),
    h.2.2.2 Unit roiAll rawB⟩

end GeePython
